import Mathlib

/-! Patrol: configuration and status (`config.go`, `api_status.go`)

A shallow embedding of `Config.Validate`, `LoadConfig`, `Config.Clone` and
`Patrol.GetStatus` and of the parts of package `patrol` they rely on, followed
by theorems about them.

Conventions of the embedding

* A Go `map[string]*T` is an association list `List (String × Option T)`:
  the order of the list is the order in which `range` visits the entries
  (Go leaves that order unspecified, so theorems quantify over every list),
  `none` is a nil pointer. A nil map and an empty map are both `[]`
  (`len` is `0` and `range` visits nothing for either).
* Go `int` values are `Int`; `Validate` only compares and copies them.
* `Validate` mutates its receiver and returns an `error`; the embedding
  returns the receiver's final state together with `Option Error`
  (`none` is Go's `nil` error).
* `GetStatus` returns its status together with the lock operations it
  performs, in order.
* `Clone` is about sharing: there maps and slices are references into an
  explicit heap, and `view` reads a config out of the heap as a value.
-/

namespace Patrol

/-- The `error` values that `config.go` declares, together with `entity`,
which stands for an error value returned by an entity's own `Validate`. Such a
value belongs to the entity: it is none of the sentinels that `Config.Validate`
itself returns. `os` and `json` stand for the errors of `os.Open` and of
`json.Decoder.Decode`, which `LoadConfig` passes on. -/
inductive Error where
  | ERR_CONFIG_NIL
  | ERR_PATROL_EMPTY
  | ERR_APPS_KEY_EMPTY
  | ERR_APPS_KEY_INVALID
  | ERR_APPS_APP_NIL
  | ERR_SERVICES_KEY_EMPTY
  | ERR_SERVICES_KEY_INVALID
  | ERR_SERVICES_SERVICE_NIL
  | ERR_APP_LABEL_DUPLICATE
  | ERR_SERVICE_LABEL_DUPLICATE
  | ERR_LISTEN_HTTP_EMPTY
  | ERR_LISTEN_UDP_EMPTY
  | ERR_SECRET_TOOLONG
  | entity (cause : String)
  | os (cause : String)
  | json (cause : String)
  deriving DecidableEq

/-- Modelled from the spec: type `ConfigApp` is declared in a file that is not
at hand. `Config.Validate` reads one field of it, `KeepAlive`; the remaining
declared fields are carried as one uninterpreted value. -/
structure ConfigApp where
  KeepAlive : Int
  fields : String
  deriving DecidableEq

/-- Modelled from the spec: type `ConfigService` is declared in a file that is
not at hand; `Config.Validate` reads none of its fields. -/
structure ConfigService where
  fields : String
  deriving DecidableEq

/-- What `Config.Validate` uses from the rest of package `patrol`: the numeric
constants, the identifier rule and the entity methods. None of them is declared
in `config.go`, so the embedding takes them as parameters.

`appClone`/`serviceClone` is `Clone` on a non-nil receiver; `Clone` of a nil
receiver is nil and `IsValid` is the nil test, as for `Config.Clone` and
`Config.IsValid` (lines 136-145): the nil check right after the call to `Clone`
relies on both. `appValidate`/`serviceValidate` is the entity's `Validate`,
which may write to its receiver: it returns the entity's error, or the
receiver as `Validate` left it. -/
structure Deps where
  TICKEVERY_MIN : Int
  TICKEVERY_MAX : Int
  TICKEVERY_DEFAULT : Int
  HISTORY_MIN : Int
  HISTORY_MAX : Int
  HISTORY_DEFAULT : Int
  APP_PING_TIMEOUT_MIN : Int
  APP_PING_TIMEOUT_MAX : Int
  APP_PING_TIMEOUT_DEFAULT : Int
  APP_KEEPALIVE_HTTP : Int
  APP_KEEPALIVE_UDP : Int
  IsAppServiceID : String → Bool
  appClone : ConfigApp → ConfigApp
  appValidate : ConfigApp → Except String ConfigApp
  serviceClone : ConfigService → ConfigService
  serviceValidate : ConfigService → Except String ConfigService

/-- The fields of `Config` that `Validate` reads or writes, and `Timestamp`.
The override pointers `HTTP`/`UDP`, the trigger callbacks and `unittesting`
are neither read nor written by `Validate` and are left out. -/
structure Config where
  Apps : List (String × Option ConfigApp)
  Services : List (String × Option ConfigService)
  TickEvery : Int
  History : Int
  Timestamp : String
  PingTimeout : Int
  ListenHTTP : List String
  ListenUDP : List String
  deriving DecidableEq

/-- Go's `strings.ToLower` on the strings that reach it in `Validate`: keys
that `IsAppServiceID` has accepted, which are ASCII (`0-9 A-Z a-z -`, comment
on `Config.Apps`). On ASCII text `strings.ToLower` maps `A`..`Z` to `a`..`z`
and leaves every other byte alone, which is `Char.toLower` on each
character. -/
def ToLower (s : String) : String := ⟨s.data.map Char.toLower⟩

/-- The comma-ok lookup `_, ok := m[id]`: is `id` a key of `m`. -/
def hasKey {α : Type} (m : List (String × α)) (id : String) : Bool :=
  m.any (fun p => decide (p.1 = id))

/-- The loop `for id, app := range self.Apps` of `Config.Validate`
(`config.go` lines 191-218). The arguments are the entries still to visit, the
new map `apps` and the flags `http` and `udp`; an early `return err` is
`Except.error err`. -/
def appsLoop (D : Deps) :
    List (String × Option ConfigApp) → List (String × Option ConfigApp) → Bool → Bool →
      Except Error (List (String × Option ConfigApp) × Bool × Bool)
  | [], apps, http, udp => .ok (apps, http, udp)
  | (id, app) :: rest, apps, http, udp =>
    if id = "" then .error .ERR_APPS_KEY_EMPTY
    else if D.IsAppServiceID id = false then .error .ERR_APPS_KEY_INVALID
    else
      match app.map D.appClone with
      | none => .error .ERR_APPS_APP_NIL
      | some app =>
        match D.appValidate app with
        | .error err => .error (.entity err)
        | .ok app =>
          if hasKey apps (ToLower id) = true then .error .ERR_APP_LABEL_DUPLICATE
          else if app.KeepAlive = D.APP_KEEPALIVE_HTTP then
            appsLoop D rest (apps ++ [(ToLower id, some app)]) true udp
          else if app.KeepAlive = D.APP_KEEPALIVE_UDP then
            appsLoop D rest (apps ++ [(ToLower id, some app)]) http true
          else
            appsLoop D rest (apps ++ [(ToLower id, some app)]) http udp

/-- The loop `for id, service := range self.Services` of `Config.Validate`
(`config.go` lines 232-254). -/
def servicesLoop (D : Deps) :
    List (String × Option ConfigService) → List (String × Option ConfigService) →
      Except Error (List (String × Option ConfigService))
  | [], services => .ok services
  | (id, service) :: rest, services =>
    if id = "" then .error .ERR_SERVICES_KEY_EMPTY
    else if D.IsAppServiceID id = false then .error .ERR_SERVICES_KEY_INVALID
    else
      match service.map D.serviceClone with
      | none => .error .ERR_SERVICES_SERVICE_NIL
      | some service =>
        match D.serviceValidate service with
        | .error err => .error (.entity err)
        | .ok service =>
          if hasKey services (ToLower id) = true then .error .ERR_SERVICE_LABEL_DUPLICATE
          else servicesLoop D rest (services ++ [(ToLower id, some service)])

/-- The lines 258-278 of `Config.Validate`: the three tunables are normalised
in place. `PingTimeout` is compared with `HISTORY_MIN` and `HISTORY_MAX`, as in
the source. -/
def clampTunables (D : Deps) (self : Config) : Config :=
  let self := { self with TickEvery :=
    if self.TickEvery = 0 then D.TICKEVERY_DEFAULT
    else if self.TickEvery < D.TICKEVERY_MIN then D.TICKEVERY_MIN
    else if self.TickEvery > D.TICKEVERY_MAX then D.TICKEVERY_MAX
    else self.TickEvery }
  let self := { self with History :=
    if self.History = 0 then D.HISTORY_DEFAULT
    else if self.History < D.HISTORY_MIN then D.HISTORY_MIN
    else if self.History > D.HISTORY_MAX then D.HISTORY_MAX
    else self.History }
  { self with PingTimeout :=
    if self.PingTimeout = 0 then D.APP_PING_TIMEOUT_DEFAULT
    else if self.PingTimeout < D.HISTORY_MIN then D.APP_PING_TIMEOUT_MIN
    else if self.PingTimeout > D.HISTORY_MAX then D.APP_PING_TIMEOUT_MAX
    else self.PingTimeout }

/-- `func (self *Config) Validate() error` (`config.go` lines 177-280).
The first component is the receiver when `Validate` returns, the second the
returned error. -/
def Validate (D : Deps) (self : Config) : Config × Option Error :=
  if self.Apps.length = 0 ∧ self.Services.length = 0 then
    (self, some .ERR_PATROL_EMPTY)
  else
    match appsLoop D self.Apps [] false false with
    | .error err => (self, some err)
    | .ok (apps, http, udp) =>
      if http = true ∧ self.ListenHTTP.length = 0 then (self, some .ERR_LISTEN_HTTP_EMPTY)
      else if udp = true ∧ self.ListenUDP.length = 0 then (self, some .ERR_LISTEN_UDP_EMPTY)
      else
        let self := { self with Apps := apps }
        match servicesLoop D self.Services [] with
        | .error err => (self, some err)
        | .ok services =>
          let self := { self with Services := services }
          (clampTunables D self, none)

/-! ## A sample instantiation

Concrete values for the parameters, used to evaluate `Validate` on examples. -/

/-- Modelled from the spec: `IsAppServiceID` is declared in a file that is not
at hand. The identifier rule of the spec: only characters of `[0-9A-Za-z-]`,
not empty, at most 63 long, no `-` at either end. -/
def IsAppServiceID (key : String) : Bool :=
  key.data.all (fun c => c.isAlphanum || c == '-') &&
    (0 < key.data.length && key.data.length ≤ 63) &&
    (key.data.head? != some '-' && key.data.getLast? != some '-')

/-- Sample entity validation for apps: an app without declared fields is
rejected, any other app is accepted unchanged. -/
def sampleAppValidate (app : ConfigApp) : Except String ConfigApp :=
  if app.fields = "" then .error "App Name was empty" else .ok app

/-- Sample entity validation for services. -/
def sampleServiceValidate (service : ConfigService) : Except String ConfigService :=
  if service.fields = "" then .error "Service Name was empty" else .ok service

/-- Sample parameters. The two defaults `15` and `100` are those the comments
on `Config.TickEvery` and `Config.History` give; the other numbers are sample
values ordered `0 < MIN ≤ DEFAULT ≤ MAX` within each component. -/
def sampleDeps : Deps where
  TICKEVERY_MIN := 5
  TICKEVERY_MAX := 120
  TICKEVERY_DEFAULT := 15
  HISTORY_MIN := 5
  HISTORY_MAX := 1000
  HISTORY_DEFAULT := 100
  APP_PING_TIMEOUT_MIN := 5
  APP_PING_TIMEOUT_MAX := 180
  APP_PING_TIMEOUT_DEFAULT := 30
  APP_KEEPALIVE_HTTP := 3
  APP_KEEPALIVE_UDP := 4
  IsAppServiceID := IsAppServiceID
  appClone := id
  appValidate := sampleAppValidate
  serviceClone := id
  serviceValidate := sampleServiceValidate

/-- A config with no entries and no declared values. -/
def emptyConfig : Config where
  Apps := []
  Services := []
  TickEvery := 0
  History := 0
  Timestamp := ""
  PingTimeout := 0
  ListenHTTP := []
  ListenUDP := []

/-! ## Proof devices

Both loops of `Validate` have one shape: check the entry, lowercase its key,
refuse a key already present, insert. `rekey` is that shape, with the per-entry
check, the duplicate error and the update of the loop's flags as arguments. -/

/-- The checks of one iteration of the apps loop that come before the
lowercasing: the value is the validated clone. -/
def appCheck (D : Deps) (id : String) (app : Option ConfigApp) : Except Error ConfigApp :=
  if id = "" then .error .ERR_APPS_KEY_EMPTY
  else if D.IsAppServiceID id = false then .error .ERR_APPS_KEY_INVALID
  else
    match app.map D.appClone with
    | none => .error .ERR_APPS_APP_NIL
    | some app =>
      match D.appValidate app with
      | .error err => .error (.entity err)
      | .ok app => .ok app

/-- The checks of one iteration of the services loop that come before the
lowercasing. -/
def serviceCheck (D : Deps) (id : String) (service : Option ConfigService) :
    Except Error ConfigService :=
  if id = "" then .error .ERR_SERVICES_KEY_EMPTY
  else if D.IsAppServiceID id = false then .error .ERR_SERVICES_KEY_INVALID
  else
    match service.map D.serviceClone with
    | none => .error .ERR_SERVICES_SERVICE_NIL
    | some service =>
      match D.serviceValidate service with
      | .error err => .error (.entity err)
      | .ok service => .ok service

/-- The update of the flags `(http, udp)` at the end of one iteration of the
apps loop. -/
def appFlags (D : Deps) (flags : Bool × Bool) (app : ConfigApp) : Bool × Bool :=
  if app.KeepAlive = D.APP_KEEPALIVE_HTTP then (true, flags.2)
  else if app.KeepAlive = D.APP_KEEPALIVE_UDP then (flags.1, true)
  else flags

/-- The common shape of the two loops. -/
def rekey {α σ : Type} (chk : String → Option α → Except Error α) (dup : Error)
    (upd : σ → α → σ) :
    List (String × Option α) → List (String × Option α) → σ →
      Except Error (List (String × Option α) × σ)
  | [], acc, s => .ok (acc, s)
  | (id, v) :: rest, acc, s =>
    match chk id v with
    | .error err => .error err
    | .ok a =>
      if hasKey acc (ToLower id) = true then .error dup
      else rekey chk dup upd rest (acc ++ [(ToLower id, some a)]) (upd s a)

/-- The value a successful check yields, `none` when the check fails. -/
def checked {α : Type} (chk : String → Option α → Except Error α)
    (p : String × Option α) : Option α :=
  match chk p.1 p.2 with
  | .ok a => some a
  | .error _ => none

/-- The flags after the entries of `l`, each updated by the checked value. -/
def flagsAfter {α σ : Type} (chk : String → Option α → Except Error α) (upd : σ → α → σ)
    (l : List (String × Option α)) (s : σ) : σ :=
  l.foldl (fun s p => match checked chk p with
    | some a => upd s a
    | none => s) s

/-- The lowercased keys of a map, in visiting order. -/
def lowerKeys {α : Type} (m : List (String × α)) : List String :=
  m.map (fun p => ToLower p.1)

/-! ## Vocabulary of the statements -/

/-- An app entry passes the checks of the apps loop that come before the
duplicate check: its key is non-empty and accepted by `IsAppServiceID`, its
entity is non-nil and the entity's own `Validate` succeeds on its clone. -/
def appEntryOK (D : Deps) (p : String × Option ConfigApp) : Prop :=
  p.1 ≠ "" ∧ D.IsAppServiceID p.1 = true ∧
    ∃ a, p.2 = some a ∧ ∃ a', D.appValidate (D.appClone a) = .ok a'

/-- A service entry passes the checks of the services loop that come before
the duplicate check. -/
def serviceEntryOK (D : Deps) (p : String × Option ConfigService) : Prop :=
  p.1 ≠ "" ∧ D.IsAppServiceID p.1 = true ∧
    ∃ a, p.2 = some a ∧ ∃ a', D.serviceValidate (D.serviceClone a) = .ok a'

/-- The app of an entry has keep-alive `mode`: it is non-nil, its clone
validates, and the validated clone, which is the value `Validate` reads
`KeepAlive` from, has `KeepAlive = mode`. -/
def hasKeepAlive (D : Deps) (mode : Int) (p : String × Option ConfigApp) : Prop :=
  ∃ a a', p.2 = some a ∧ D.appValidate (D.appClone a) = .ok a' ∧ a'.KeepAlive = mode

/-- The lowercased, validated image of a map: what a loop of `Validate` has
built when it ends without an error. -/
def rekeyed {α : Type} (chk : String → Option α → Except Error α)
    (m : List (String × Option α)) : List (String × Option α) :=
  m.map (fun p => (ToLower p.1, checked chk p))

/-- Two raw keys of one map differ only in letter case: they are distinct and
equal after lowercasing. -/
def caseCollision {α : Type} (m : List (String × α)) : Prop :=
  ∃ p ∈ m, ∃ q ∈ m, p.1 ≠ q.1 ∧ ToLower p.1 = ToLower q.1

/-- The scenario of the spec: one app `Web` with HTTP keep-alive and one HTTP
listener. -/
def webConfig : Config :=
  { emptyConfig with
    Apps := [("Web", some ⟨3, "web"⟩)]
    ListenHTTP := ["127.0.0.1:8080"] }

/-- Two app keys that differ only in case, both with a nil entity. -/
def nilPairConfig : Config :=
  { emptyConfig with Apps := [("Foo", none), ("foo", none)] }

/-- Two app keys that differ only in case, both with a valid entity, and two
such service keys. -/
def casePairConfig : Config :=
  { emptyConfig with
    Apps := [("Foo", some ⟨1, "foo"⟩), ("foo", some ⟨1, "foo"⟩)]
    Services := [("Db", some ⟨"db"⟩), ("dB", some ⟨"db"⟩)] }

/-- One valid app, two service keys that differ only in case, and both
listeners. -/
def servicePairConfig : Config :=
  { emptyConfig with
    Apps := [("foo", some ⟨1, "foo"⟩)]
    Services := [("Db", some ⟨"db"⟩), ("dB", some ⟨"db"⟩)]
    ListenHTTP := ["127.0.0.1:8080"]
    ListenUDP := ["127.0.0.1:1248"] }

/-- One app with HTTP keep-alive, one with UDP keep-alive, no listener. -/
def bothKeepAliveConfig : Config :=
  { emptyConfig with Apps := [("web", some ⟨3, "web"⟩), ("dns", some ⟨4, "dns"⟩)] }

/-- One app with UDP keep-alive, a service, no UDP listener. -/
def udpConfig : Config :=
  { emptyConfig with
    Apps := [("Dns", some ⟨4, "dns"⟩), ("job", some ⟨1, "job"⟩)]
    Services := [("db", some ⟨"db"⟩)]
    ListenHTTP := ["127.0.0.1:8080"] }

/-- One app with HTTP keep-alive next to another app and a service, no HTTP
listener. -/
def httpConfig : Config :=
  { emptyConfig with
    Apps := [("job", some ⟨1, "job"⟩), ("Web", some ⟨3, "web"⟩)]
    Services := [("db", some ⟨"db"⟩)]
    ListenUDP := ["127.0.0.1:1248"] }

/-- The clamping rule in the words of the spec, for one tunable with declared
value `v`: the default if `v` is the unset sentinel `0`, the minimum if `v` is
non-zero and below the minimum, the maximum if `v` is above the maximum, and
`v` unchanged otherwise. -/
def clampSpec (DEFAULT MIN MAX v : Int) : Int :=
  if v = 0 then DEFAULT
  else if v ≠ 0 ∧ v < MIN then MIN
  else if v > MAX then MAX
  else v

/-- The scenario of the spec: a declared tick interval of `999999`. -/
def tickConfig : Config := { webConfig with TickEvery := 999999, History := 3 }

/-- A declared ping timeout between the sample `APP_PING_TIMEOUT_MAX` and the
sample `HISTORY_MAX`. -/
def pingConfig : Config := { webConfig with PingTimeout := 500 }

/-- Parameters in which the ping-timeout default lies below `HISTORY_MIN`;
every component is still ordered `0 < MIN ≤ DEFAULT ≤ MAX`. -/
def pingSkewDeps : Deps :=
  { sampleDeps with
    APP_PING_TIMEOUT_MIN := 1
    APP_PING_TIMEOUT_DEFAULT := 3
    APP_PING_TIMEOUT_MAX := 10 }

/-- The scenario of the spec: app `A` and service `a`. -/
def crossConfig : Config :=
  { emptyConfig with
    Apps := [("A", some ⟨1, "a"⟩)]
    Services := [("a", some ⟨"a"⟩)] }

/-- No entries, but declared tunables and listeners. -/
def noEntityConfig : Config :=
  { emptyConfig with
    TickEvery := 7
    History := 0
    PingTimeout := 2000
    ListenHTTP := ["127.0.0.1:8080"] }

/-! ## Loading (`LoadConfig`) -/

/-- What `LoadConfig` uses from outside the package. `Open path` is `os.Open`
followed by the bytes the decoder reads from the file: the error of `os.Open`,
or the content. `Decode content pointee` is `json.Decoder.Decode` called with a
non-nil `*Config`: the decode error, or the pointed-to `Config` as decoding
left it. `Decode` receives the pointer by value, so the pointed-to value is all
it can write. -/
structure Loader where
  Open : String → Except String String
  Decode : String → Config → Except String Config

/-- `func LoadConfig(path string) (*Config, error)` (`config.go` lines 30-59).
The local `config` is a pointer, `Option Config`, set to `&Config{}` before the
call to `Decode`; `emptyConfig` is the zero value `Config{}`. -/
def LoadConfig (L : Loader) (path : String) : Option Config × Option Error :=
  match L.Open path with
  | .error err => (none, some (.os err))
  | .ok file =>
    match L.Decode file emptyConfig with
    | .error err => (none, some (.json err))
    | .ok pointee =>
      let config : Option Config := some pointee
      if config = none then (none, some .ERR_CONFIG_NIL)
      else (config, none)

/-- A sample loader over three files. Its decoder knows two documents: `null`,
which `encoding/json` accepts and which has no effect on a struct, and the
empty object; it reports a syntax error for anything else, such as a lone
opening brace. -/
def sampleLoader : Loader where
  Open := fun path =>
    if path = "null.json" then .ok "null"
    else if path = "empty.json" then .ok "\x7b\x7d"
    else if path = "broken.json" then .ok "\x7b"
    else .error "open: no such file or directory"
  Decode := fun content pointee =>
    if content = "null" then .ok pointee
    else if content = "\x7b\x7d" then .ok pointee
    else .error "unexpected end of JSON input"

/-- The sentinel errors that `Config.Validate` itself returns. -/
def ownSentinels : List Error :=
  [.ERR_PATROL_EMPTY, .ERR_APPS_KEY_EMPTY, .ERR_APPS_KEY_INVALID, .ERR_APPS_APP_NIL,
    .ERR_SERVICES_KEY_EMPTY, .ERR_SERVICES_KEY_INVALID, .ERR_SERVICES_SERVICE_NIL,
    .ERR_APP_LABEL_DUPLICATE, .ERR_SERVICE_LABEL_DUPLICATE, .ERR_LISTEN_HTTP_EMPTY,
    .ERR_LISTEN_UDP_EMPTY]

/-- The sentinel errors of the apps phase of `Validate` (the apps loop and the
two listener checks) and of the emptiness check before it. -/
def appsPhaseSentinels : List Error :=
  [.ERR_PATROL_EMPTY, .ERR_APPS_KEY_EMPTY, .ERR_APPS_KEY_INVALID, .ERR_APPS_APP_NIL,
    .ERR_APP_LABEL_DUPLICATE, .ERR_LISTEN_HTTP_EMPTY, .ERR_LISTEN_UDP_EMPTY]

/-- The sentinel errors of the services loop of `Validate`. -/
def servicesPhaseSentinels : List Error :=
  [.ERR_SERVICES_KEY_EMPTY, .ERR_SERVICES_KEY_INVALID, .ERR_SERVICES_SERVICE_NIL,
    .ERR_SERVICE_LABEL_DUPLICATE]

/-- An app whose name is empty, which the sample entity validation rejects,
next to a valid service. -/
def badAppConfig : Config :=
  { emptyConfig with
    Apps := [("web", some ⟨1, ""⟩)]
    Services := [("db", some ⟨"db"⟩)] }

/-- A valid app under an uppercase key and a service with a nil entity. -/
def nilServiceConfig : Config :=
  { emptyConfig with
    Apps := [("Web", some ⟨1, "web"⟩)]
    Services := [("db", none)]
    TickEvery := 999999 }

/-- Two apps that each fail a different per-entry check: an empty key and a
key that `IsAppServiceID` refuses. -/
def twoFaultsConfig : Config :=
  { emptyConfig with Apps := [("", some ⟨1, "a"⟩), ("-x", some ⟨1, "b"⟩)] }

/-- Three valid apps and two valid services, with both listeners. -/
def fleetConfig : Config :=
  { emptyConfig with
    Apps := [("Web", some ⟨3, "web"⟩), ("dns", some ⟨4, "dns"⟩), ("Job", some ⟨1, "job"⟩)]
    Services := [("Db", some ⟨"db"⟩), ("mq", some ⟨"mq"⟩)]
    History := 7
    ListenHTTP := ["127.0.0.1:8080"]
    ListenUDP := ["127.0.0.1:1248"] }

/-! ## Status (`api_status.go`) -/

/-- A `time.Time` by the two quantities `IsZero` reads. -/
structure Time where
  sec : Int
  nsec : Int
  deriving DecidableEq

/-- Go's `func (t Time) IsZero() bool`: seconds and nanoseconds are both zero. -/
def Time.IsZero (t : Time) : Bool := decide (t.sec = 0 ∧ t.nsec = 0)

/-- Modelled from the spec: type `Timestamp` is declared in a file that is not
at hand; `GetStatus` sets its two fields `Time` and `TimestampFormat`. -/
structure Timestamp where
  Time : Time
  TimestampFormat : String
  deriving DecidableEq

/-- Modelled from the spec: type `API_Response`, an entity's representation
for the API, is declared in a file that is not at hand and is opaque to
`GetStatus`. -/
structure API_Response where
  fields : String
  deriving DecidableEq

/-- Modelled from the spec: the runtime type `App` is declared in a file that
is not at hand. Its state is opaque to `GetStatus`, which only locks it and
asks for its API representation. -/
structure App where
  state : String
  deriving DecidableEq

/-- Modelled from the spec: the runtime type `Service`, as for `App`. -/
structure Service where
  state : String
  deriving DecidableEq

/-- `type API_Status struct` (`api_status.go` lines 3-12). The maps hold
pointers, `Started` is a pointer. -/
structure API_Status where
  InstanceID : String
  Apps : List (String × Option API_Response)
  Services : List (String × Option API_Response)
  Started : Option Timestamp
  Shutdown : Bool
  deriving DecidableEq

set_option linter.dupNamespace false in
/-- The fields of `Patrol` that `GetStatus` reads. The entities of `apps` and
`services` are non-nil (`GetStatus` locks each of them). Keys of a Go map are
pairwise distinct; statements that rely on it say so. -/
structure Patrol where
  instance_id : String
  config : Config
  apps : List (String × App)
  services : List (String × Service)
  ticker_running : Time
  shutdown : Bool

/-- What `GetStatus` uses from the rest of package `patrol`: the constant
`api_endpoint_status` and the method `apiResponse` of apps and of services,
which returns a pointer. `apiResponse` is called with the entity's lock held
and is taken to perform no lock operation of its own. -/
structure StatusDeps where
  api_endpoint_status : Nat
  appResponse : App → Nat → Option API_Response
  serviceResponse : Service → Nat → Option API_Response

/-- The locks `GetStatus` operates on: `self.mu`, and the lock `o` of the app
or of the service stored under a key. -/
inductive Lock where
  | mu
  | app (id : String)
  | service (id : String)
  deriving DecidableEq

/-- A lock operation: `RLock` or `RUnlock` on a lock. -/
inductive LockOp where
  | RLock (l : Lock)
  | RUnlock (l : Lock)
  deriving DecidableEq

/-- The map assignment `m[k] = v`: the value under `k` is replaced when `k` is
a key of `m`, a new entry is added otherwise. -/
def mapSet {α : Type} (m : List (String × α)) (k : String) (v : α) : List (String × α) :=
  if hasKey m k = true then m.map (fun p => if p.1 = k then (k, v) else p)
  else m ++ [(k, v)]

/-- The loop `for id, app := range self.apps` of `GetStatus` (lines 31-35):
the arguments are the entries still to visit, `result` and the lock operations
performed so far. -/
def statusAppsLoop (S : StatusDeps) :
    List (String × App) → API_Status → List LockOp → API_Status × List LockOp
  | [], result, ops => (result, ops)
  | (id, app) :: rest, result, ops =>
    let ops := ops ++ [.RLock (.app id)]
    let result := { result with
      Apps := mapSet result.Apps id (S.appResponse app S.api_endpoint_status) }
    let ops := ops ++ [.RUnlock (.app id)]
    statusAppsLoop S rest result ops

/-- The loop `for id, service := range self.services` of `GetStatus` (lines
36-40). -/
def statusServicesLoop (S : StatusDeps) :
    List (String × Service) → API_Status → List LockOp → API_Status × List LockOp
  | [], result, ops => (result, ops)
  | (id, service) :: rest, result, ops =>
    let ops := ops ++ [.RLock (.service id)]
    let result := { result with
      Services := mapSet result.Services id (S.serviceResponse service S.api_endpoint_status) }
    let ops := ops ++ [.RUnlock (.service id)]
    statusServicesLoop S rest result ops

/-- `func (self *Patrol) GetStatus() *API_Status` (`api_status.go` lines
14-42). The first component is the returned status, the second the lock
operations of the call in the order they are performed. -/
def GetStatus (S : StatusDeps) (self : Patrol) : API_Status × List LockOp :=
  let ops := [LockOp.RLock .mu]
  let started := self.ticker_running
  let shutdown := self.shutdown
  let ops := ops ++ [.RUnlock .mu]
  let result : API_Status :=
    { InstanceID := self.instance_id
      Apps := []
      Services := []
      Started := none
      Shutdown := shutdown }
  let result :=
    if started.IsZero = false then
      { result with
        Started := some { Time := started, TimestampFormat := self.config.Timestamp } }
    else result
  let (result, ops) := statusAppsLoop S self.apps result ops
  let (result, ops) := statusServicesLoop S self.services result ops
  (result, ops)

/-- The status `GetStatus` has built when it enters its first loop. -/
def initialStatus (self : Patrol) : API_Status :=
  { InstanceID := self.instance_id
    Apps := []
    Services := []
    Started :=
      if self.ticker_running.IsZero = false then
        some { Time := self.ticker_running, TimestampFormat := self.config.Timestamp }
      else none
    Shutdown := self.shutdown }

/-- The lock operations of visiting each of `locks` in turn: acquire it,
release it. -/
def lockPairs : List Lock → List LockOp
  | [] => []
  | l :: locks => .RLock l :: .RUnlock l :: lockPairs locks

/-- One step of lock bookkeeping: `RLock` adds the lock to the held locks,
`RUnlock` removes one holding of it. -/
def lockStep (held : List Lock) : LockOp → List Lock
  | .RLock l => l :: held
  | .RUnlock l => held.erase l

/-- The locks held after a sequence of lock operations, starting with `held`. -/
def heldFrom (held : List Lock) (ops : List LockOp) : List Lock :=
  ops.foldl lockStep held

/-- The locks held after a sequence of lock operations of a call that starts
holding none. -/
def heldAfter (ops : List LockOp) : List Lock := heldFrom [] ops

/-- Sample entity representations: the state of the entity, tagged with the
endpoint. -/
def sampleStatusDeps : StatusDeps where
  api_endpoint_status := 2
  appResponse := fun app endpoint => some ⟨app.state ++ "@" ++ toString endpoint⟩
  serviceResponse := fun service endpoint => some ⟨service.state ++ "@" ++ toString endpoint⟩

/-- A patrol with two apps and one service whose ticker has run. -/
def samplePatrol : Patrol where
  instance_id := "2c1d0ef0-3b7a-4a0e-9c55-6f1f4d7a9e11"
  config := { webConfig with Timestamp := "Mon, 02 Jan 2006 15:04:05 -0700" }
  apps := [("web", ⟨"running"⟩), ("dns", ⟨"stopped"⟩)]
  services := [("web", ⟨"running"⟩)]
  ticker_running := ⟨63800000000, 5⟩
  shutdown := true

/-- A patrol without entities whose ticker has never run. -/
def idlePatrol : Patrol where
  instance_id := "idle"
  config := emptyConfig
  apps := []
  services := []
  ticker_running := ⟨0, 0⟩
  shutdown := false

/-! ## Cloning (`Config.Clone`)

`Clone` is about sharing, so here maps and slices are references into a heap.
A map value is nil or the address of a map object; a slice is a header over a
backing array. `view` reads a config out of the heap as a `Config` value. -/

/-- The part of the Go heap that `Config.Clone` touches: the map objects of
type `map[string]*ConfigApp` and `map[string]*ConfigService` and the backing
arrays of `[]string`, each by address (`cells a i` is element `i` of the array
at address `a`), with the next free address of each kind. -/
structure Heap where
  appMaps : Nat → List (String × Option ConfigApp)
  serviceMaps : Nat → List (String × Option ConfigService)
  cells : Nat → Nat → String
  nextAppMap : Nat
  nextServiceMap : Nat
  nextArray : Nat

/-- A slice header: the backing array (`none` for a nil slice), the offset of
the first element in it, length and capacity. -/
structure Slice where
  array : Option Nat
  off : Nat
  len : Nat
  cap : Nat
  deriving DecidableEq

/-- Modelled from the spec: type `ConfigHTTP` is declared in a file that is
not at hand; `Config.Clone` only calls its `Clone`. -/
structure ConfigHTTP where
  fields : String
  deriving DecidableEq

/-- Modelled from the spec: type `ConfigUDP`, as for `ConfigHTTP`. -/
structure ConfigUDP where
  fields : String
  deriving DecidableEq

/-- `type Config struct` (`config.go` lines 61-134) as it lies in memory: the
maps and slices are references. A trigger is nil or the identity of a
function. -/
structure ConfigObject where
  Apps : Option Nat
  Services : Option Nat
  TickEvery : Int
  History : Int
  Timestamp : String
  PingTimeout : Int
  ListenHTTP : Slice
  ListenUDP : Slice
  HTTP : Option ConfigHTTP
  UDP : Option ConfigUDP
  TriggerStart : Option Nat
  TriggerShutdown : Option Nat
  TriggerStarted : Option Nat
  TriggerTick : Option Nat
  TriggerStopped : Option Nat
  unittesting : Bool
  deriving DecidableEq

/-- What `Config.Clone` uses from the rest of package `patrol`, next to the
entity `Clone` of `Deps`: `Clone` of `ConfigHTTP` and of `ConfigUDP` on a
non-nil receiver. -/
structure CloneDeps extends Deps where
  httpClone : ConfigHTTP → ConfigHTTP
  udpClone : ConfigUDP → ConfigUDP

/-- The entries of the map a map value refers to; a nil map has none. -/
def readApps (h : Heap) (m : Option Nat) : List (String × Option ConfigApp) :=
  match m with
  | none => []
  | some a => h.appMaps a

/-- The entries of the map a map value refers to; a nil map has none. -/
def readServices (h : Heap) (m : Option Nat) : List (String × Option ConfigService) :=
  match m with
  | none => []
  | some a => h.serviceMaps a

/-- The element `s[i]` of a slice. -/
def sliceGet (h : Heap) (s : Slice) (i : Nat) : String :=
  match s.array with
  | none => ""
  | some a => h.cells a (s.off + i)

/-- The elements `s[0]`, ..., `s[len(s)-1]` of a slice. -/
def readSlice (h : Heap) (s : Slice) : List String :=
  (List.range s.len).map (sliceGet h s)

/-- The config a `ConfigObject` stands for in a heap: maps and slices read
out. -/
def view (h : Heap) (c : ConfigObject) : Config :=
  { Apps := readApps h c.Apps
    Services := readServices h c.Services
    TickEvery := c.TickEvery
    History := c.History
    Timestamp := c.Timestamp
    PingTimeout := c.PingTimeout
    ListenHTTP := readSlice h c.ListenHTTP
    ListenUDP := readSlice h c.ListenUDP }

/-- `make(map[string]*ConfigApp)`: a new empty map object at the next free
address. -/
def makeAppMap (h : Heap) : Heap × Option Nat :=
  ({ h with appMaps := Function.update h.appMaps h.nextAppMap []
            nextAppMap := h.nextAppMap + 1 }, some h.nextAppMap)

/-- `make(map[string]*ConfigService)`. -/
def makeServiceMap (h : Heap) : Heap × Option Nat :=
  ({ h with serviceMaps := Function.update h.serviceMaps h.nextServiceMap []
            nextServiceMap := h.nextServiceMap + 1 }, some h.nextServiceMap)

/-- `make([]string, 0, n)`: a new zeroed backing array at the next free
address and a slice of length `0` and capacity `n` over it. -/
def makeSlice (h : Heap) (n : Nat) : Heap × Slice :=
  ({ h with cells := Function.update h.cells h.nextArray (fun _ => "")
            nextArray := h.nextArray + 1 },
    { array := some h.nextArray, off := 0, len := 0, cap := n })

/-- The assignment `m[k] = v` on a map of apps; on a nil map Go panics, the
heap is left as it is. -/
def setApp (h : Heap) (m : Option Nat) (k : String) (v : Option ConfigApp) : Heap :=
  match m with
  | none => h
  | some a => { h with appMaps := Function.update h.appMaps a (mapSet (h.appMaps a) k v) }

/-- The assignment `m[k] = v` on a map of services. -/
def setService (h : Heap) (m : Option Nat) (k : String) (v : Option ConfigService) : Heap :=
  match m with
  | none => h
  | some a =>
    { h with serviceMaps := Function.update h.serviceMaps a (mapSet (h.serviceMaps a) k v) }

/-- The write of `v` into element `i` of the array at address `a`. -/
def writeCell (h : Heap) (a i : Nat) (v : String) : Heap :=
  { h with cells := Function.update h.cells a (Function.update (h.cells a) i v) }

/-- `append(s, v)`: within capacity the element is written in place after the
last one; otherwise a larger array is made, the elements are copied and the
new one added. -/
def sliceAppend (h : Heap) (s : Slice) (v : String) : Heap × Slice :=
  match s.array, decide (s.len < s.cap) with
  | some a, true => (writeCell h a (s.off + s.len) v, { s with len := s.len + 1 })
  | _, _ =>
    ({ h with cells := Function.update h.cells h.nextArray
                (fun i => if i < s.len then sliceGet h s i else if i = s.len then v else "")
              nextArray := h.nextArray + 1 },
      { array := some h.nextArray, off := 0, len := s.len + 1, cap := 2 * s.cap + 1 })

/-- The loop `for k, v := range self.Apps { config.Apps[k] = v.Clone() }`
(lines 163-165) over the entries of the source map. The loop writes only to
the map made for the clone. -/
def cloneApps (C : CloneDeps) (dst : Option Nat) :
    List (String × Option ConfigApp) → Heap → Heap
  | [], h => h
  | (k, v) :: rest, h => cloneApps C dst rest (setApp h dst k (v.map C.appClone))

/-- The loop `for k, v := range self.Services` (lines 166-168). -/
def cloneServices (C : CloneDeps) (dst : Option Nat) :
    List (String × Option ConfigService) → Heap → Heap
  | [], h => h
  | (k, v) :: rest, h => cloneServices C dst rest (setService h dst k (v.map C.serviceClone))

/-- The loop `for _, l := range src { dst = append(dst, l) }` (lines 169-174)
over the indices still to visit; each element is read when its turn comes. -/
def cloneListen (src : Slice) : List Nat → Heap → Slice → Heap × Slice
  | [], h, dst => (h, dst)
  | i :: rest, h, dst =>
    let l := sliceGet h src i
    let (h, dst) := sliceAppend h dst l
    cloneListen src rest h dst

/-- `func (self *Config) Clone() *Config` (`config.go` lines 142-176), as a
heap transformer. `unittesting` is not named in the composite literal and
gets its zero value. -/
def Clone (C : CloneDeps) (h : Heap) (self : Option ConfigObject) :
    Heap × Option ConfigObject :=
  match self with
  | none => (h, none)
  | some self =>
    let (h, apps) := makeAppMap h
    let (h, services) := makeServiceMap h
    let (h, listenHTTP) := makeSlice h self.ListenHTTP.len
    let (h, listenUDP) := makeSlice h self.ListenUDP.len
    let config : ConfigObject :=
      { Apps := apps
        Services := services
        TickEvery := self.TickEvery
        History := self.History
        Timestamp := self.Timestamp
        PingTimeout := self.PingTimeout
        ListenHTTP := listenHTTP
        ListenUDP := listenUDP
        HTTP := self.HTTP.map C.httpClone
        UDP := self.UDP.map C.udpClone
        TriggerStart := self.TriggerStart
        TriggerShutdown := self.TriggerShutdown
        TriggerStarted := self.TriggerStarted
        TriggerTick := self.TriggerTick
        TriggerStopped := self.TriggerStopped
        unittesting := false }
    let h := cloneApps C config.Apps (readApps h self.Apps) h
    let h := cloneServices C config.Services (readServices h self.Services) h
    let (h, listenHTTP) := cloneListen self.ListenHTTP (List.range self.ListenHTTP.len) h
      config.ListenHTTP
    let config := { config with ListenHTTP := listenHTTP }
    let (h, listenUDP) := cloneListen self.ListenUDP (List.range self.ListenUDP.len) h
      config.ListenUDP
    let config := { config with ListenUDP := listenUDP }
    (h, some config)

/-- A change of one entry through a config: a map assignment `m[k] = v`, a
`delete(m, k)`, or an element assignment `s[i] = v`. -/
inductive EntryWrite where
  | setApp (k : String) (v : Option ConfigApp)
  | deleteApp (k : String)
  | setService (k : String) (v : Option ConfigService)
  | deleteService (k : String)
  | setListenHTTP (i : Nat) (v : String)
  | setListenUDP (i : Nat) (v : String)

/-- `delete(m, k)` on the entries of a map. -/
def mapDelete {α : Type} (m : List (String × α)) (k : String) : List (String × α) :=
  m.filter (fun p => decide (p.1 ≠ k))

/-- The element assignment `s[i] = v`; out of range Go panics, the heap is
left as it is. -/
def sliceSet (h : Heap) (s : Slice) (i : Nat) (v : String) : Heap :=
  match s.array, decide (i < s.len) with
  | some a, true => writeCell h a (s.off + i) v
  | _, _ => h

/-- One change of an entry through the config `c`. -/
def applyWrite (c : ConfigObject) (h : Heap) : EntryWrite → Heap
  | .setApp k v => setApp h c.Apps k v
  | .deleteApp k =>
    match c.Apps with
    | none => h
    | some a => { h with appMaps := Function.update h.appMaps a (mapDelete (h.appMaps a) k) }
  | .setService k v => setService h c.Services k v
  | .deleteService k =>
    match c.Services with
    | none => h
    | some a =>
      { h with serviceMaps := Function.update h.serviceMaps a (mapDelete (h.serviceMaps a) k) }
  | .setListenHTTP i v => sliceSet h c.ListenHTTP i v
  | .setListenUDP i v => sliceSet h c.ListenUDP i v

/-- A heap with one map of apps, one map of services and one array, which both
listener slices of `sampleObject` share. -/
def sampleHeap : Heap where
  appMaps := fun a => if a = 0 then [("Web", some ⟨3, "web"⟩), ("dns", none)] else []
  serviceMaps := fun a => if a = 0 then [("db", some ⟨"db"⟩)] else []
  cells := fun a i =>
    if a = 0 then (["127.0.0.1:8080", "127.0.0.1:8081", "127.0.0.1:1248"].getD i "") else ""
  nextAppMap := 1
  nextServiceMap := 1
  nextArray := 1

/-- A config over `sampleHeap`: two HTTP listeners and one UDP listener cut
from one array. -/
def sampleObject : ConfigObject where
  Apps := some 0
  Services := some 0
  TickEvery := 30
  History := 0
  Timestamp := "Mon, 02 Jan 2006 15:04:05 -0700"
  PingTimeout := 60
  ListenHTTP := { array := some 0, off := 0, len := 2, cap := 3 }
  ListenUDP := { array := some 0, off := 2, len := 1, cap := 1 }
  HTTP := some ⟨"listen"⟩
  UDP := none
  TriggerStart := some 7
  TriggerShutdown := none
  TriggerStarted := none
  TriggerTick := none
  TriggerStopped := none
  unittesting := true

/-- Sample parameters for `Clone`. -/
def sampleCloneDeps : CloneDeps :=
  { sampleDeps with httpClone := id, udpClone := id }

/-- The heap `h'` holds what `h` holds at every address below the three
frontiers. -/
def sameBelow (nA nS nR : Nat) (h h' : Heap) : Prop :=
  (∀ a < nA, h'.appMaps a = h.appMaps a) ∧ (∀ a < nS, h'.serviceMaps a = h.serviceMaps a) ∧
    (∀ a < nR, h'.cells a = h.cells a)

/-- Every reference of a config points below the three frontiers. -/
def refsBelow (nA nS nR : Nat) (c : ConfigObject) : Prop :=
  (∀ a, c.Apps = some a → a < nA) ∧ (∀ a, c.Services = some a → a < nS) ∧
    (∀ a, c.ListenHTTP.array = some a → a < nR) ∧ (∀ a, c.ListenUDP.array = some a → a < nR)

/-- Every reference of a config points at or above the three frontiers. -/
def refsFrom (nA nS nR : Nat) (c : ConfigObject) : Prop :=
  (∀ a, c.Apps = some a → nA ≤ a) ∧ (∀ a, c.Services = some a → nS ≤ a) ∧
    (∀ a, c.ListenHTTP.array = some a → nR ≤ a) ∧ (∀ a, c.ListenUDP.array = some a → nR ≤ a)

/-- The clone of a map, entry by entry. -/
def clonedEntries {α : Type} (f : α → α) (m : List (String × Option α)) :
    List (String × Option α) :=
  m.map (fun p => (p.1, p.2.map f))

/-- Every reference of a config points below the next free addresses of the
heap: to an object that has been made. -/
def allocated (h : Heap) (c : ConfigObject) : Prop :=
  refsBelow h.nextAppMap h.nextServiceMap h.nextArray c

/-- The heap of `Clone` after the composite literal: the two maps and the two
arrays of the clone have been made. -/
def cloneStage0 (h : Heap) (self : ConfigObject) : Heap :=
  (makeSlice (makeSlice (makeServiceMap (makeAppMap h).1).1 self.ListenHTTP.len).1
    self.ListenUDP.len).1

/-- The heap of `Clone` after the loop over the apps. -/
def cloneStage1 (C : CloneDeps) (h : Heap) (self : ConfigObject) : Heap :=
  cloneApps C (some h.nextAppMap) (readApps (cloneStage0 h self) self.Apps) (cloneStage0 h self)

/-- The heap of `Clone` after the loop over the services. -/
def cloneStage2 (C : CloneDeps) (h : Heap) (self : ConfigObject) : Heap :=
  cloneServices C (some h.nextServiceMap) (readServices (cloneStage1 C h self) self.Services)
    (cloneStage1 C h self)

/-- The heap and the slice of `Clone` after the loop over the HTTP listeners. -/
def cloneStage3 (C : CloneDeps) (h : Heap) (self : ConfigObject) : Heap × Slice :=
  cloneListen self.ListenHTTP (List.range self.ListenHTTP.len) (cloneStage2 C h self)
    { array := some h.nextArray, off := 0, len := 0, cap := self.ListenHTTP.len }

/-- The heap and the slice of `Clone` after the loop over the UDP listeners. -/
def cloneStage4 (C : CloneDeps) (h : Heap) (self : ConfigObject) : Heap × Slice :=
  cloneListen self.ListenUDP (List.range self.ListenUDP.len) (cloneStage3 C h self).1
    { array := some (h.nextArray + 1), off := 0, len := 0, cap := self.ListenUDP.len }

/-- The config `Clone` returns for a non-nil receiver. -/
def clonedObject (C : CloneDeps) (h : Heap) (self : ConfigObject) : ConfigObject :=
  { Apps := some h.nextAppMap
    Services := some h.nextServiceMap
    TickEvery := self.TickEvery
    History := self.History
    Timestamp := self.Timestamp
    PingTimeout := self.PingTimeout
    ListenHTTP := (cloneStage3 C h self).2
    ListenUDP := (cloneStage4 C h self).2
    HTTP := self.HTTP.map C.httpClone
    UDP := self.UDP.map C.udpClone
    TriggerStart := self.TriggerStart
    TriggerShutdown := self.TriggerShutdown
    TriggerStarted := self.TriggerStarted
    TriggerTick := self.TriggerTick
    TriggerStopped := self.TriggerStopped
    unittesting := false }

/-! ## Theorems -/

theorem hasKey_append {α : Type} (m n : List (String × α)) (id : String) :
    hasKey (m ++ n) id = (hasKey m id || hasKey n id) := by
  simp [hasKey]

theorem hasKey_eq_false_iff {α : Type} (m : List (String × α)) (id : String) :
    hasKey m id = false ↔ ∀ p ∈ m, p.1 ≠ id := by
  simp [hasKey]

theorem appsLoop_eq_rekey (D : Deps) (l acc : List (String × Option ConfigApp)) (http udp : Bool) :
    appsLoop D l acc http udp
      = rekey (appCheck D) .ERR_APP_LABEL_DUPLICATE (appFlags D) l acc (http, udp) := by
  induction l generalizing acc http udp with
  | nil => rfl
  | cons p l ih =>
    obtain ⟨id, app⟩ := p
    simp only [appsLoop, rekey, appCheck]
    by_cases h1 : id = ""
    · simp [h1]
    by_cases h2 : D.IsAppServiceID id = false
    · simp [h1, h2]
    simp only [if_neg h1, if_neg h2]
    cases app with
    | none => simp
    | some a =>
      simp only [Option.map_some']
      cases hv : D.appValidate (D.appClone a) with
      | error e => simp
      | ok a' =>
        simp only
        by_cases h3 : hasKey acc (ToLower id) = true
        · simp [h3]
        simp only [if_neg h3, appFlags]
        by_cases h4 : a'.KeepAlive = D.APP_KEEPALIVE_HTTP
        · simp only [if_pos h4, ih]
        by_cases h5 : a'.KeepAlive = D.APP_KEEPALIVE_UDP
        · simp only [if_neg h4, if_pos h5, ih]
        simp only [if_neg h4, if_neg h5, ih]

theorem servicesLoop_eq_rekey (D : Deps) (l acc : List (String × Option ConfigService)) :
    servicesLoop D l acc
      = (rekey (serviceCheck D) .ERR_SERVICE_LABEL_DUPLICATE (fun (s : Unit) _ => s) l acc ()).map
          Prod.fst := by
  induction l generalizing acc with
  | nil => rfl
  | cons p l ih =>
    obtain ⟨id, sv⟩ := p
    simp only [servicesLoop, rekey, serviceCheck]
    by_cases h1 : id = ""
    · simp [h1, Except.map]
    by_cases h2 : D.IsAppServiceID id = false
    · simp [h1, h2, Except.map]
    simp only [if_neg h1, if_neg h2]
    cases sv with
    | none => simp [Except.map]
    | some a =>
      simp only [Option.map_some']
      cases hv : D.serviceValidate (D.serviceClone a) with
      | error e => simp [Except.map]
      | ok a' =>
        simp only
        by_cases h3 : hasKey acc (ToLower id) = true
        · simp [h3, Except.map]
        simp only [if_neg h3, ih]

theorem checked_eq_some {α : Type} (chk : String → Option α → Except Error α)
    (p : String × Option α) (a : α) : checked chk p = some a ↔ chk p.1 p.2 = .ok a := by
  unfold checked
  cases chk p.1 p.2 <;> simp

theorem rekey_ok_iff {α σ : Type} (chk : String → Option α → Except Error α) (dup : Error)
    (upd : σ → α → σ) (l acc : List (String × Option α)) (s : σ)
    (r : List (String × Option α) × σ) :
    rekey chk dup upd l acc s = .ok r ↔
      (∀ p ∈ l, ∃ a, chk p.1 p.2 = .ok a) ∧ (∀ k ∈ lowerKeys l, hasKey acc k = false) ∧
        (lowerKeys l).Nodup ∧
        r = (acc ++ l.map (fun p => (ToLower p.1, checked chk p)), flagsAfter chk upd l s) := by
  induction l generalizing acc s with
  | nil =>
    simp only [rekey, lowerKeys, flagsAfter, List.map_nil, List.append_nil, List.foldl_nil,
      List.not_mem_nil, false_imp_iff, implies_true, List.nodup_nil, true_and, Except.ok.injEq]
    exact eq_comm
  | cons p l ih =>
    obtain ⟨id, v⟩ := p
    cases hc : chk id v with
    | error e => simp [rekey, hc]
    | ok a =>
      by_cases hk : hasKey acc (ToLower id) = true
      · simp [rekey, hc, hk, lowerKeys]
      · have hk' : hasKey acc (ToLower id) = false := by simpa using hk
        simp only [rekey, hc, if_neg hk, ih]
        simp only [lowerKeys, List.map_cons, List.mem_cons, List.nodup_cons, forall_eq_or_imp,
          hc, hk', hasKey_append, flagsAfter, List.foldl_cons, checked, List.append_assoc,
          List.singleton_append, Bool.or_eq_false_iff, List.mem_map, forall_exists_index,
          and_imp, forall_apply_eq_imp_iff₂]
        simp only [hasKey, List.any_cons, List.any_nil, Bool.or_false, decide_eq_false_iff_not]
        constructor
        · rintro ⟨h1, h2, h3, h4⟩
          refine ⟨⟨⟨a, rfl⟩, h1⟩, ⟨trivial, fun q hq => (h2 q hq).1⟩, ⟨?_, h3⟩, h4⟩
          rintro ⟨q, hq, he⟩
          exact (h2 q hq).2 he.symm
        · rintro ⟨⟨_, h1⟩, ⟨_, h2⟩, ⟨h3, h4⟩, h5⟩
          exact ⟨h1, fun q hq => ⟨h2 q hq, fun he => h3 ⟨q, hq, he.symm⟩⟩, h4, h5⟩

theorem rekey_error {α σ : Type} (chk : String → Option α → Except Error α) (dup : Error)
    (upd : σ → α → σ) (l acc : List (String × Option α)) (s : σ) (e : Error)
    (h : rekey chk dup upd l acc s = .error e) :
    (e = dup ∧ ¬ ((∀ k ∈ lowerKeys l, hasKey acc k = false) ∧ (lowerKeys l).Nodup)) ∨
      ∃ p ∈ l, chk p.1 p.2 = .error e := by
  induction l generalizing acc s with
  | nil => simp [rekey] at h
  | cons p l ih =>
    obtain ⟨id, v⟩ := p
    cases hc : chk id v with
    | error e' =>
      simp only [rekey, hc, Except.error.injEq] at h
      exact Or.inr ⟨(id, v), List.mem_cons_self _ _, by rw [← h]; exact hc⟩
    | ok a =>
      by_cases hk : hasKey acc (ToLower id) = true
      · simp only [rekey, hc, if_pos hk, Except.error.injEq] at h
        refine Or.inl ⟨h.symm, fun hn => ?_⟩
        have := hn.1 (ToLower id) (by simp [lowerKeys])
        rw [hk] at this
        exact Bool.noConfusion this
      · simp only [rekey, hc, if_neg hk] at h
        rcases ih _ _ h with ⟨he, hn⟩ | ⟨q, hq, hqe⟩
        · refine Or.inl ⟨he, fun hn' => hn ⟨fun k hk' => ?_, ?_⟩⟩
          · have hnd : (ToLower id :: lowerKeys l).Nodup := hn'.2
            have h1 : hasKey acc k = false := hn'.1 k (List.mem_cons_of_mem _ hk')
            have h2 : ToLower id ≠ k := fun he' => (List.nodup_cons.mp hnd).1 (he' ▸ hk')
            rw [hasKey_append, h1]
            simp [hasKey, h2]
          · exact (List.nodup_cons.mp hn'.2).2
        · exact Or.inr ⟨q, List.mem_cons_of_mem _ hq, hqe⟩

theorem appCheck_ok_iff (D : Deps) (id : String) (app : Option ConfigApp) (r : ConfigApp) :
    appCheck D id app = .ok r ↔
      id ≠ "" ∧ D.IsAppServiceID id = true ∧
        ∃ a, app = some a ∧ D.appValidate (D.appClone a) = .ok r := by
  unfold appCheck
  by_cases h1 : id = ""
  · simp [h1]
  by_cases h2 : D.IsAppServiceID id = false
  · simp [h1, h2]
  simp only [if_neg h1, if_neg h2]
  cases app with
  | none => simp
  | some a =>
    cases hv : D.appValidate (D.appClone a) <;> simp_all

theorem appCheck_error (D : Deps) (id : String) (app : Option ConfigApp) (e : Error)
    (h : appCheck D id app = .error e) :
    e = .ERR_APPS_KEY_EMPTY ∨ e = .ERR_APPS_KEY_INVALID ∨ e = .ERR_APPS_APP_NIL ∨
      ∃ a msg, app = some a ∧ D.appValidate (D.appClone a) = .error msg ∧ e = .entity msg := by
  unfold appCheck at h
  by_cases h1 : id = ""
  · simp [h1] at h; exact Or.inl h.symm
  by_cases h2 : D.IsAppServiceID id = false
  · simp [h1, h2] at h; exact Or.inr (Or.inl h.symm)
  simp only [if_neg h1, if_neg h2] at h
  cases app with
  | none => simp at h; exact Or.inr (Or.inr (Or.inl h.symm))
  | some a =>
    cases hv : D.appValidate (D.appClone a) with
    | error msg =>
      simp [hv] at h
      exact Or.inr (Or.inr (Or.inr ⟨a, msg, rfl, hv, h.symm⟩))
    | ok a' => simp [hv] at h

theorem serviceCheck_ok_iff (D : Deps) (id : String) (sv : Option ConfigService)
    (r : ConfigService) :
    serviceCheck D id sv = .ok r ↔
      id ≠ "" ∧ D.IsAppServiceID id = true ∧
        ∃ a, sv = some a ∧ D.serviceValidate (D.serviceClone a) = .ok r := by
  unfold serviceCheck
  by_cases h1 : id = ""
  · simp [h1]
  by_cases h2 : D.IsAppServiceID id = false
  · simp [h1, h2]
  simp only [if_neg h1, if_neg h2]
  cases sv with
  | none => simp
  | some a =>
    cases hv : D.serviceValidate (D.serviceClone a) <;> simp_all

theorem serviceCheck_error (D : Deps) (id : String) (sv : Option ConfigService) (e : Error)
    (h : serviceCheck D id sv = .error e) :
    e = .ERR_SERVICES_KEY_EMPTY ∨ e = .ERR_SERVICES_KEY_INVALID ∨
      e = .ERR_SERVICES_SERVICE_NIL ∨
      ∃ a msg, sv = some a ∧ D.serviceValidate (D.serviceClone a) = .error msg ∧
        e = .entity msg := by
  unfold serviceCheck at h
  by_cases h1 : id = ""
  · simp [h1] at h; exact Or.inl h.symm
  by_cases h2 : D.IsAppServiceID id = false
  · simp [h1, h2] at h; exact Or.inr (Or.inl h.symm)
  simp only [if_neg h1, if_neg h2] at h
  cases sv with
  | none => simp at h; exact Or.inr (Or.inr (Or.inl h.symm))
  | some a =>
    cases hv : D.serviceValidate (D.serviceClone a) with
    | error msg =>
      simp [hv] at h
      exact Or.inr (Or.inr (Or.inr ⟨a, msg, rfl, hv, h.symm⟩))
    | ok a' => simp [hv] at h

theorem flagsAfter_cons {α σ : Type} (chk : String → Option α → Except Error α)
    (upd : σ → α → σ) (p : String × Option α) (l : List (String × Option α)) (s : σ) :
    flagsAfter chk upd (p :: l) s
      = flagsAfter chk upd l (match checked chk p with
          | some a => upd s a
          | none => s) := rfl

theorem flagsAfter_http (D : Deps) (l : List (String × Option ConfigApp)) (http udp : Bool) :
    (flagsAfter (appCheck D) (appFlags D) l (http, udp)).1 = true ↔
      http = true ∨
        ∃ p ∈ l, ∃ a, appCheck D p.1 p.2 = .ok a ∧ a.KeepAlive = D.APP_KEEPALIVE_HTTP := by
  induction l generalizing http udp with
  | nil => simp [flagsAfter]
  | cons p l ih =>
    rw [flagsAfter_cons]
    cases hc : appCheck D p.1 p.2 with
    | error e => simp [checked, hc, ih]
    | ok a =>
      simp only [checked, hc, appFlags]
      by_cases h4 : a.KeepAlive = D.APP_KEEPALIVE_HTTP
      · simp [if_pos h4, ih, h4]
        exact Or.inr (Or.inl ⟨a, hc, h4⟩)
      by_cases h5 : a.KeepAlive = D.APP_KEEPALIVE_UDP
      · simp only [if_neg h4, if_pos h5, ih]
        simp [hc, h4]
      · simp only [if_neg h4, if_neg h5, ih]
        simp [hc, h4]

theorem flagsAfter_udp (D : Deps) (l : List (String × Option ConfigApp)) (http udp : Bool) :
    (flagsAfter (appCheck D) (appFlags D) l (http, udp)).2 = true ↔
      udp = true ∨
        ∃ p ∈ l, ∃ a, appCheck D p.1 p.2 = .ok a ∧ a.KeepAlive ≠ D.APP_KEEPALIVE_HTTP ∧
          a.KeepAlive = D.APP_KEEPALIVE_UDP := by
  induction l generalizing http udp with
  | nil => simp [flagsAfter]
  | cons p l ih =>
    rw [flagsAfter_cons]
    cases hc : appCheck D p.1 p.2 with
    | error e => simp [checked, hc, ih]
    | ok a =>
      simp only [checked, hc, appFlags]
      by_cases h4 : a.KeepAlive = D.APP_KEEPALIVE_HTTP
      · simp only [if_pos h4, ih]
        simp [hc, h4]
      by_cases h5 : a.KeepAlive = D.APP_KEEPALIVE_UDP
      · simp only [if_neg h4, if_pos h5, ih]
        simp [hc, h4, h5]
        exact Or.inr (Or.inl (fun h => h4 (h5.trans h)))
      · simp only [if_neg h4, if_neg h5, ih]
        simp [hc, h5]

/-- Every run of `Validate` takes one of six paths. -/
theorem Validate_cases (D : Deps) (c : Config) :
    (c.Apps = [] ∧ c.Services = [] ∧ Validate D c = (c, some .ERR_PATROL_EMPTY)) ∨
    (¬ (c.Apps = [] ∧ c.Services = []) ∧
      ((∃ e, appsLoop D c.Apps [] false false = .error e ∧ Validate D c = (c, some e)) ∨
       (∃ apps http udp, appsLoop D c.Apps [] false false = .ok (apps, http, udp) ∧
          ((http = true ∧ c.ListenHTTP = [] ∧ Validate D c = (c, some .ERR_LISTEN_HTTP_EMPTY)) ∨
           (¬ (http = true ∧ c.ListenHTTP = []) ∧ udp = true ∧ c.ListenUDP = [] ∧
              Validate D c = (c, some .ERR_LISTEN_UDP_EMPTY)) ∨
           (¬ (http = true ∧ c.ListenHTTP = []) ∧ ¬ (udp = true ∧ c.ListenUDP = []) ∧
              ((∃ e, servicesLoop D c.Services [] = .error e ∧
                  Validate D c = ({ c with Apps := apps }, some e)) ∨
               (∃ services, servicesLoop D c.Services [] = .ok services ∧
                  Validate D c
                    = (clampTunables D { c with Apps := apps, Services := services },
                        none)))))))) := by
  by_cases h0 : c.Apps = [] ∧ c.Services = []
  · left
    refine ⟨h0.1, h0.2, ?_⟩
    simp [Validate, h0.1, h0.2]
  right
  refine ⟨h0, ?_⟩
  have h0' : ¬ (c.Apps.length = 0 ∧ c.Services.length = 0) := by
    simpa [List.length_eq_zero] using h0
  unfold Validate
  rw [if_neg h0']
  cases ha : appsLoop D c.Apps [] false false with
  | error e => exact Or.inl ⟨e, rfl, rfl⟩
  | ok r =>
    obtain ⟨apps, http, udp⟩ := r
    right
    refine ⟨apps, http, udp, rfl, ?_⟩
    simp only [List.length_eq_zero]
    by_cases h1 : http = true ∧ c.ListenHTTP = []
    · exact Or.inl ⟨h1.1, h1.2, by rw [if_pos h1]⟩
    by_cases h2 : udp = true ∧ c.ListenUDP = []
    · exact Or.inr (Or.inl ⟨h1, h2.1, h2.2, by rw [if_neg h1, if_pos h2]⟩)
    refine Or.inr (Or.inr ⟨h1, h2, ?_⟩)
    rw [if_neg h1, if_neg h2]
    cases hs : servicesLoop D c.Services [] with
    | error e => exact Or.inl ⟨e, rfl, rfl⟩
    | ok services => exact Or.inr ⟨services, rfl, rfl⟩

theorem appEntryOK_iff (D : Deps) (p : String × Option ConfigApp) :
    appEntryOK D p ↔ ∃ r, appCheck D p.1 p.2 = .ok r := by
  simp only [appEntryOK, appCheck_ok_iff]
  constructor
  · rintro ⟨h1, h2, a, h3, a', h4⟩
    exact ⟨a', h1, h2, a, h3, h4⟩
  · rintro ⟨a', h1, h2, a, h3, h4⟩
    exact ⟨h1, h2, a, h3, a', h4⟩

theorem serviceEntryOK_iff (D : Deps) (p : String × Option ConfigService) :
    serviceEntryOK D p ↔ ∃ r, serviceCheck D p.1 p.2 = .ok r := by
  simp only [serviceEntryOK, serviceCheck_ok_iff]
  constructor
  · rintro ⟨h1, h2, a, h3, a', h4⟩
    exact ⟨a', h1, h2, a, h3, h4⟩
  · rintro ⟨a', h1, h2, a, h3, h4⟩
    exact ⟨h1, h2, a, h3, a', h4⟩

theorem appsLoop_ok_iff (D : Deps) (l : List (String × Option ConfigApp))
    (r : List (String × Option ConfigApp) × Bool × Bool) :
    appsLoop D l [] false false = .ok r ↔
      (∀ p ∈ l, appEntryOK D p) ∧ (lowerKeys l).Nodup ∧
        r = (l.map (fun p => (ToLower p.1, checked (appCheck D) p)),
              flagsAfter (appCheck D) (appFlags D) l (false, false)) := by
  rw [appsLoop_eq_rekey, rekey_ok_iff]
  simp only [appEntryOK_iff, hasKey, List.any_nil, implies_true, true_and, List.nil_append]

theorem servicesLoop_ok_iff (D : Deps) (l r : List (String × Option ConfigService)) :
    servicesLoop D l [] = .ok r ↔
      (∀ p ∈ l, serviceEntryOK D p) ∧ (lowerKeys l).Nodup ∧
        r = l.map (fun p => (ToLower p.1, checked (serviceCheck D) p)) := by
  rw [servicesLoop_eq_rekey]
  cases h : rekey (serviceCheck D) .ERR_SERVICE_LABEL_DUPLICATE (fun (s : Unit) _ => s) l [] () with
  | error e =>
    simp only [Except.map]
    refine ⟨fun hf => Except.noConfusion hf, ?_⟩
    rintro ⟨h1, h2, _⟩
    have := (rekey_ok_iff (serviceCheck D) .ERR_SERVICE_LABEL_DUPLICATE (fun (s : Unit) _ => s)
      l [] () (l.map (fun p => (ToLower p.1, checked (serviceCheck D) p)), ())).mpr
      ⟨fun p hp => (serviceEntryOK_iff D p).mp (h1 p hp), by simp [hasKey], h2, by simp⟩
    rw [h] at this
    exact Except.noConfusion this
  | ok q =>
    have h' := (rekey_ok_iff _ _ _ _ _ _ _).mp h
    obtain ⟨h1, _, h3, h4⟩ := h'
    simp only [Except.map, Except.ok.injEq]
    constructor
    · intro hr
      refine ⟨fun p hp => (serviceEntryOK_iff D p).mpr (h1 p hp), h3, ?_⟩
      rw [← hr, h4]
      simp
    · rintro ⟨_, _, hr⟩
      rw [hr, h4]
      simp

theorem appsLoop_error (D : Deps) (l : List (String × Option ConfigApp)) (e : Error)
    (h : appsLoop D l [] false false = .error e) :
    (e = .ERR_APP_LABEL_DUPLICATE ∧ ¬ (lowerKeys l).Nodup) ∨
      ∃ p ∈ l, appCheck D p.1 p.2 = .error e := by
  rw [appsLoop_eq_rekey] at h
  rcases rekey_error _ _ _ _ _ _ _ h with ⟨h1, h2⟩ | h3
  · exact Or.inl ⟨h1, fun hn => h2 ⟨by simp [hasKey], hn⟩⟩
  · exact Or.inr h3

theorem servicesLoop_error (D : Deps) (l : List (String × Option ConfigService)) (e : Error)
    (h : servicesLoop D l [] = .error e) :
    (e = .ERR_SERVICE_LABEL_DUPLICATE ∧ ¬ (lowerKeys l).Nodup) ∨
      ∃ p ∈ l, serviceCheck D p.1 p.2 = .error e := by
  rw [servicesLoop_eq_rekey] at h
  cases h' : rekey (serviceCheck D) .ERR_SERVICE_LABEL_DUPLICATE (fun (s : Unit) _ => s) l [] () with
  | ok q => rw [h'] at h; simp [Except.map] at h
  | error e' =>
    rw [h'] at h
    simp only [Except.map, Except.error.injEq] at h
    subst h
    rcases rekey_error _ _ _ _ _ _ _ h' with ⟨h1, h2⟩ | h3
    · exact Or.inl ⟨h1, fun hn => h2 ⟨by simp [hasKey], hn⟩⟩
    · exact Or.inr h3

theorem httpFlag_iff (D : Deps) (l : List (String × Option ConfigApp))
    (hall : ∀ p ∈ l, appEntryOK D p) :
    (flagsAfter (appCheck D) (appFlags D) l (false, false)).1 = true ↔
      ∃ p ∈ l, hasKeepAlive D D.APP_KEEPALIVE_HTTP p := by
  rw [flagsAfter_http]
  simp only [Bool.false_eq_true, false_or, appCheck_ok_iff, hasKeepAlive]
  constructor
  · rintro ⟨p, hp, a', ⟨_, _, a, h1, h2⟩, h3⟩
    exact ⟨p, hp, a, a', h1, h2, h3⟩
  · rintro ⟨p, hp, a, a', h1, h2, h3⟩
    exact ⟨p, hp, a', ⟨(hall p hp).1, (hall p hp).2.1, a, h1, h2⟩, h3⟩

theorem udpFlag_iff (D : Deps) (l : List (String × Option ConfigApp))
    (hall : ∀ p ∈ l, appEntryOK D p) (hk : D.APP_KEEPALIVE_HTTP ≠ D.APP_KEEPALIVE_UDP) :
    (flagsAfter (appCheck D) (appFlags D) l (false, false)).2 = true ↔
      ∃ p ∈ l, hasKeepAlive D D.APP_KEEPALIVE_UDP p := by
  rw [flagsAfter_udp]
  simp only [Bool.false_eq_true, false_or, appCheck_ok_iff, hasKeepAlive]
  constructor
  · rintro ⟨p, hp, a', ⟨_, _, a, h1, h2⟩, _, h3⟩
    exact ⟨p, hp, a, a', h1, h2, h3⟩
  · rintro ⟨p, hp, a, a', h1, h2, h3⟩
    exact ⟨p, hp, a', ⟨(hall p hp).1, (hall p hp).2.1, a, h1, h2⟩,
      fun h => hk (h.symm.trans h3), h3⟩

/-- C1. `Config.Validate` returns no error if and only if: apps and services
are not both empty; every key of apps and of services is non-empty and accepted
by `IsAppServiceID`, every entity is non-nil and its own `Validate` succeeds on
its clone; no two keys of one namespace are equal after lowercasing;
`ListenHTTP` is non-empty whenever some app has keep-alive
`APP_KEEPALIVE_HTTP`; and `ListenUDP` is non-empty whenever some app has
keep-alive `APP_KEEPALIVE_UDP`. The two keep-alive constants are distinct. -/
theorem Validate_ok_iff (D : Deps) (c : Config)
    (hk : D.APP_KEEPALIVE_HTTP ≠ D.APP_KEEPALIVE_UDP) :
    (Validate D c).2 = none ↔
      ¬ (c.Apps = [] ∧ c.Services = []) ∧
      (∀ p ∈ c.Apps, appEntryOK D p) ∧ (∀ p ∈ c.Services, serviceEntryOK D p) ∧
      (lowerKeys c.Apps).Nodup ∧ (lowerKeys c.Services).Nodup ∧
      ((∃ p ∈ c.Apps, hasKeepAlive D D.APP_KEEPALIVE_HTTP p) → c.ListenHTTP ≠ []) ∧
      ((∃ p ∈ c.Apps, hasKeepAlive D D.APP_KEEPALIVE_UDP p) → c.ListenUDP ≠ []) := by
  rcases Validate_cases D c with ⟨h1, h2, hv⟩ | ⟨h0, ⟨e, ha, hv⟩ |
    ⟨apps, http, udp, ha, ⟨hh, hl, hv⟩ | ⟨hh, hu, hl, hv⟩ | ⟨hh, hu, ⟨e, hs, hv⟩ | ⟨sv, hs, hv⟩⟩⟩⟩
  · rw [hv]
    exact ⟨fun h => Option.noConfusion h, fun h => absurd ⟨h1, h2⟩ h.1⟩
  · rw [hv]
    refine ⟨fun h => Option.noConfusion h, fun h => ?_⟩
    have := (appsLoop_ok_iff D c.Apps _).mpr ⟨h.2.1, h.2.2.2.1, rfl⟩
    rw [ha] at this
    exact Except.noConfusion this
  · rw [hv]
    refine ⟨fun h => Option.noConfusion h, fun h => ?_⟩
    obtain ⟨hall, _, hr⟩ := (appsLoop_ok_iff D c.Apps _).mp ha
    have hf : (flagsAfter (appCheck D) (appFlags D) c.Apps (false, false)).1 = true := by
      rw [← hh]
      exact (congrArg (fun r => r.2.1) hr).symm
    exact absurd hl (h.2.2.2.2.2.1 ((httpFlag_iff D c.Apps hall).mp hf))
  · rw [hv]
    refine ⟨fun h => Option.noConfusion h, fun h => ?_⟩
    obtain ⟨hall, _, hr⟩ := (appsLoop_ok_iff D c.Apps _).mp ha
    have hf : (flagsAfter (appCheck D) (appFlags D) c.Apps (false, false)).2 = true := by
      rw [← hu]
      exact (congrArg (fun r => r.2.2) hr).symm
    exact absurd hl (h.2.2.2.2.2.2 ((udpFlag_iff D c.Apps hall hk).mp hf))
  · rw [hv]
    refine ⟨fun h => Option.noConfusion h, fun h => ?_⟩
    have := (servicesLoop_ok_iff D c.Services _).mpr ⟨h.2.2.1, h.2.2.2.2.1, rfl⟩
    rw [hs] at this
    exact Except.noConfusion this
  · rw [hv]
    obtain ⟨hall, hnd, hr⟩ := (appsLoop_ok_iff D c.Apps _).mp ha
    obtain ⟨hsall, hsnd, _⟩ := (servicesLoop_ok_iff D c.Services _).mp hs
    have h1 : http = (flagsAfter (appCheck D) (appFlags D) c.Apps (false, false)).1 :=
      congrArg (fun r => r.2.1) hr
    have h2 : udp = (flagsAfter (appCheck D) (appFlags D) c.Apps (false, false)).2 :=
      congrArg (fun r => r.2.2) hr
    refine ⟨fun _ => ⟨h0, hall, hsall, hnd, hsnd, fun hx hl => ?_, fun hx hl => ?_⟩, fun _ => rfl⟩
    · exact hh ⟨h1.trans ((httpFlag_iff D c.Apps hall).mpr hx), hl⟩
    · exact hu ⟨h2.trans ((udpFlag_iff D c.Apps hall hk).mpr hx), hl⟩

/-- Witness of C1 on `webConfig`, which validates. -/
theorem Validate_ok_iff_witness :
    sampleDeps.APP_KEEPALIVE_HTTP ≠ sampleDeps.APP_KEEPALIVE_UDP ∧
      (Validate sampleDeps webConfig).2 = none ∧
      (∀ p ∈ webConfig.Apps, appEntryOK sampleDeps p) ∧
      ((∃ p ∈ webConfig.Apps, hasKeepAlive sampleDeps sampleDeps.APP_KEEPALIVE_HTTP p) →
        webConfig.ListenHTTP ≠ []) :=
  ⟨by decide, by decide,
    ((Validate_ok_iff sampleDeps webConfig (by decide)).mp (by decide)).2.1,
    ((Validate_ok_iff sampleDeps webConfig (by decide)).mp (by decide)).2.2.2.2.2.1⟩

theorem toLower_toLower (c : Char) : c.toLower.toLower = c.toLower := by
  by_cases h : c.toNat ≥ 65 ∧ c.toNat ≤ 90
  · have h1 : c.toLower = Char.ofNat (c.toNat + 32) := by
      simp only [Char.toLower, h, and_self, if_true]
    rw [h1]
    obtain ⟨ha, hb⟩ := h
    generalize c.toNat = n at ha hb
    interval_cases n <;> rfl
  · have h1 : c.toLower = c := by
      simp only [Char.toLower]
      rw [if_neg h]
    rw [h1, h1]

theorem ToLower_idem (s : String) : ToLower (ToLower s) = ToLower s := by
  simp only [ToLower, List.map_map]
  congr 1
  apply List.map_congr_left
  intro c _
  exact toLower_toLower c

theorem rekeyed_keys_lower {α : Type} (chk : String → Option α → Except Error α)
    (m : List (String × Option α)) : ∀ p ∈ rekeyed chk m, ToLower p.1 = p.1 := by
  intro p hp
  simp only [rekeyed, List.mem_map] at hp
  obtain ⟨q, _, rfl⟩ := hp
  exact ToLower_idem q.1

/-- When `Validate` returns no error, the receiver holds the lowercased,
validated images of both input maps and the clamped tunables. -/
theorem Validate_ok_result (D : Deps) (c : Config) (h : (Validate D c).2 = none) :
    (Validate D c).1 = clampTunables D
      { c with Apps := rekeyed (appCheck D) c.Apps,
               Services := rekeyed (serviceCheck D) c.Services } := by
  rcases Validate_cases D c with ⟨_, _, hv⟩ | ⟨_, ⟨e, _, hv⟩ |
    ⟨apps, http, udp, ha, ⟨_, _, hv⟩ | ⟨_, _, _, hv⟩ | ⟨_, _, ⟨e, _, hv⟩ | ⟨sv, hs, hv⟩⟩⟩⟩
  · rw [hv] at h; exact Option.noConfusion h
  · rw [hv] at h; exact Option.noConfusion h
  · rw [hv] at h; exact Option.noConfusion h
  · rw [hv] at h; exact Option.noConfusion h
  · rw [hv] at h; exact Option.noConfusion h
  · obtain ⟨_, _, hr⟩ := (appsLoop_ok_iff D c.Apps _).mp ha
    obtain ⟨_, _, hr'⟩ := (servicesLoop_ok_iff D c.Services _).mp hs
    have h1 : apps = rekeyed (appCheck D) c.Apps := congrArg (fun r => r.1) hr
    rw [hv, h1, hr']
    rfl

/-- C2. When `Config.Validate` returns no error, every key of the resulting
apps map and every key of the resulting services map is lowercase: equal to
its own `strings.ToLower`. -/
theorem Validate_keys_lowercase (D : Deps) (c : Config) (h : (Validate D c).2 = none) :
    (∀ p ∈ (Validate D c).1.Apps, ToLower p.1 = p.1) ∧
      (∀ p ∈ (Validate D c).1.Services, ToLower p.1 = p.1) := by
  rw [Validate_ok_result D c h]
  exact ⟨rekeyed_keys_lower (appCheck D) c.Apps, rekeyed_keys_lower (serviceCheck D) c.Services⟩

/-- Witness of C2 on `webConfig`: the key `Web` becomes `web`. -/
theorem Validate_keys_lowercase_witness :
    (Validate sampleDeps webConfig).2 = none ∧
      (Validate sampleDeps webConfig).1.Apps = [("web", some ⟨3, "web"⟩)] ∧
      ((∀ p ∈ (Validate sampleDeps webConfig).1.Apps, ToLower p.1 = p.1) ∧
        (∀ p ∈ (Validate sampleDeps webConfig).1.Services, ToLower p.1 = p.1)) :=
  ⟨by decide, by decide, Validate_keys_lowercase sampleDeps webConfig (by decide)⟩

theorem caseCollision_not_nodup {α : Type} (m : List (String × α)) (h : caseCollision m) :
    ¬ (lowerKeys m).Nodup := by
  obtain ⟨p, hp, q, hq, hne, heq⟩ := h
  intro hnd
  have := List.inj_on_of_nodup_map hnd hp hq heq
  exact hne (congrArg Prod.fst this)

theorem appCheck_ne_dup (D : Deps) (id : String) (app : Option ConfigApp) (e : Error)
    (h : appCheck D id app = .error e) :
    e ≠ .ERR_APP_LABEL_DUPLICATE ∧ e ≠ .ERR_SERVICE_LABEL_DUPLICATE ∧ e ≠ .ERR_PATROL_EMPTY ∧
      e ≠ .ERR_LISTEN_HTTP_EMPTY ∧ e ≠ .ERR_LISTEN_UDP_EMPTY := by
  rcases appCheck_error D id app e h with h | h | h | ⟨_, _, _, _, h⟩ <;> subst h <;>
    exact ⟨Error.noConfusion, Error.noConfusion, Error.noConfusion, Error.noConfusion,
      Error.noConfusion⟩

theorem serviceCheck_ne_dup (D : Deps) (id : String) (sv : Option ConfigService) (e : Error)
    (h : serviceCheck D id sv = .error e) :
    e ≠ .ERR_APP_LABEL_DUPLICATE ∧ e ≠ .ERR_SERVICE_LABEL_DUPLICATE ∧ e ≠ .ERR_PATROL_EMPTY ∧
      e ≠ .ERR_LISTEN_HTTP_EMPTY ∧ e ≠ .ERR_LISTEN_UDP_EMPTY := by
  rcases serviceCheck_error D id sv e h with h | h | h | ⟨_, _, _, _, h⟩ <;> subst h <;>
    exact ⟨Error.noConfusion, Error.noConfusion, Error.noConfusion, Error.noConfusion,
      Error.noConfusion⟩

/-- When every app entry passes the per-entry checks, the apps loop either
ends without an error or returns the duplicate error. -/
theorem appsLoop_error_of_allOK (D : Deps) (l : List (String × Option ConfigApp)) (e : Error)
    (hall : ∀ p ∈ l, appEntryOK D p) (h : appsLoop D l [] false false = .error e) :
    e = .ERR_APP_LABEL_DUPLICATE ∧ ¬ (lowerKeys l).Nodup := by
  rcases appsLoop_error D l e h with h1 | ⟨p, hp, hc⟩
  · exact h1
  · obtain ⟨r, hr⟩ := (appEntryOK_iff D p).mp (hall p hp)
    rw [hr] at hc
    exact Except.noConfusion hc

theorem servicesLoop_error_of_allOK (D : Deps) (l : List (String × Option ConfigService))
    (e : Error) (hall : ∀ p ∈ l, serviceEntryOK D p) (h : servicesLoop D l [] = .error e) :
    e = .ERR_SERVICE_LABEL_DUPLICATE ∧ ¬ (lowerKeys l).Nodup := by
  rcases servicesLoop_error D l e h with h1 | ⟨p, hp, hc⟩
  · exact h1
  · obtain ⟨r, hr⟩ := (serviceEntryOK_iff D p).mp (hall p hp)
    rw [hr] at hc
    exact Except.noConfusion hc

/-- The apps phase of `Validate` (the apps loop and the two listener checks)
passes exactly when the apps loop ends without an error and neither listener
check fires. -/
theorem appsPhase_ok (D : Deps) (c : Config)
    (hk : D.APP_KEEPALIVE_HTTP ≠ D.APP_KEEPALIVE_UDP)
    (hall : ∀ p ∈ c.Apps, appEntryOK D p) (hnd : (lowerKeys c.Apps).Nodup) :
    ∃ http udp, appsLoop D c.Apps [] false false = .ok (rekeyed (appCheck D) c.Apps, http, udp) ∧
      (http = true ↔ ∃ p ∈ c.Apps, hasKeepAlive D D.APP_KEEPALIVE_HTTP p) ∧
      (udp = true ↔ ∃ p ∈ c.Apps, hasKeepAlive D D.APP_KEEPALIVE_UDP p) :=
  ⟨_, _, (appsLoop_ok_iff D c.Apps _).mpr ⟨hall, hnd, rfl⟩, httpFlag_iff D c.Apps hall,
    udpFlag_iff D c.Apps hall hk⟩

/-- When `Validate` returns no error, no two keys of one namespace are equal
after lowercasing. -/
theorem Validate_ok_nodup (D : Deps) (c : Config) (h : (Validate D c).2 = none) :
    (lowerKeys c.Apps).Nodup ∧ (lowerKeys c.Services).Nodup := by
  rcases Validate_cases D c with ⟨_, _, hv⟩ | ⟨_, ⟨e, _, hv⟩ |
    ⟨apps, http, udp, ha, ⟨_, _, hv⟩ | ⟨_, _, _, hv⟩ | ⟨_, _, ⟨e, _, hv⟩ | ⟨sv, hs, hv⟩⟩⟩⟩
  · rw [hv] at h; exact Option.noConfusion h
  · rw [hv] at h; exact Option.noConfusion h
  · rw [hv] at h; exact Option.noConfusion h
  · rw [hv] at h; exact Option.noConfusion h
  · rw [hv] at h; exact Option.noConfusion h
  · exact ⟨((appsLoop_ok_iff D c.Apps _).mp ha).2.1,
      ((servicesLoop_ok_iff D c.Services _).mp hs).2.1⟩

/-- C3 (as stated, refuted). The apps of `nilPairConfig` hold the two keys
`Foo` and `foo`, which differ only in case, and `Validate` returns
`ERR_APPS_APP_NIL`, not the duplicate error. -/
theorem Validate_case_pair_counterexample :
    caseCollision nilPairConfig.Apps ∧
      (Validate sampleDeps nilPairConfig).2 = some .ERR_APPS_APP_NIL ∧
      (Validate sampleDeps nilPairConfig).2 ≠ some .ERR_APP_LABEL_DUPLICATE :=
  ⟨⟨("Foo", none), by simp [nilPairConfig, emptyConfig], ("foo", none),
      by simp [nilPairConfig, emptyConfig], by decide, by decide⟩,
    by decide, by decide⟩

/-- C3 (amended). A config in which one namespace holds two raw keys that
differ only in letter case never validates. The error is
`ERR_APP_LABEL_DUPLICATE` when the two keys are in apps and every app entry
passes the per-entry checks (legal key, non-nil entity, entity validation
succeeds). It is `ERR_SERVICE_LABEL_DUPLICATE` when the two keys are in
services, the apps phase passes (every app entry passes the per-entry checks,
no two app keys are equal after lowercasing, the listener required by a
keep-alive mode is present) and every service entry passes the per-entry
checks. The two keep-alive constants are distinct. -/
theorem Validate_case_pair (D : Deps) (c : Config)
    (hk : D.APP_KEEPALIVE_HTTP ≠ D.APP_KEEPALIVE_UDP) :
    (caseCollision c.Apps ∨ caseCollision c.Services → (Validate D c).2 ≠ none) ∧
    (caseCollision c.Apps → (∀ p ∈ c.Apps, appEntryOK D p) →
      (Validate D c).2 = some .ERR_APP_LABEL_DUPLICATE) ∧
    (caseCollision c.Services → (∀ p ∈ c.Apps, appEntryOK D p) → (lowerKeys c.Apps).Nodup →
      ((∃ p ∈ c.Apps, hasKeepAlive D D.APP_KEEPALIVE_HTTP p) → c.ListenHTTP ≠ []) →
      ((∃ p ∈ c.Apps, hasKeepAlive D D.APP_KEEPALIVE_UDP p) → c.ListenUDP ≠ []) →
      (∀ p ∈ c.Services, serviceEntryOK D p) →
      (Validate D c).2 = some .ERR_SERVICE_LABEL_DUPLICATE) := by
  refine ⟨fun hc hok => ?_, fun hc hall => ?_, fun hc hall hnd hh hu hsall => ?_⟩
  · have h := Validate_ok_nodup D c hok
    rcases hc with hc | hc
    · exact caseCollision_not_nodup _ hc h.1
    · exact caseCollision_not_nodup _ hc h.2
  · have hnn := caseCollision_not_nodup _ hc
    rcases Validate_cases D c with ⟨h1, _, _⟩ | ⟨_, ⟨e, ha, hv⟩ | ⟨apps, http, udp, ha, _⟩⟩
    · obtain ⟨p, hp, _⟩ := hc
      rw [h1] at hp
      exact absurd hp (List.not_mem_nil p)
    · rw [hv, (appsLoop_error_of_allOK D c.Apps e hall ha).1]
    · exact absurd ((appsLoop_ok_iff D c.Apps _).mp ha).2.1 hnn
  · have hnn := caseCollision_not_nodup _ hc
    obtain ⟨http, udp, ha, hhttp, hudp⟩ := appsPhase_ok D c hk hall hnd
    rcases Validate_cases D c with ⟨_, h2, _⟩ | ⟨_, ⟨e, ha', _⟩ | ⟨apps', http', udp', ha',
      ⟨hx, hl, _⟩ | ⟨_, hx, hl, _⟩ | ⟨_, _, ⟨e, hs, hv⟩ | ⟨sv, hs, _⟩⟩⟩⟩
    · obtain ⟨p, hp, _⟩ := hc
      rw [h2] at hp
      exact absurd hp (List.not_mem_nil p)
    · rw [ha] at ha'
      exact Except.noConfusion ha'
    · rw [ha] at ha'
      injection ha' with ha'
      injection ha' with _ ha'
      injection ha' with h1 _
      exact absurd hl (hh (hhttp.mp (h1.trans hx)))
    · rw [ha] at ha'
      injection ha' with ha'
      injection ha' with _ ha'
      injection ha' with _ h2
      exact absurd hl (hu (hudp.mp (h2.trans hx)))
    · rw [hv, (servicesLoop_error_of_allOK D c.Services e hsall hs).1]
    · exact absurd ((servicesLoop_ok_iff D c.Services _).mp hs).2.1 hnn

/-- Witness of C3 (amended) on `casePairConfig` and `servicePairConfig`. -/
theorem Validate_case_pair_witness :
    sampleDeps.APP_KEEPALIVE_HTTP ≠ sampleDeps.APP_KEEPALIVE_UDP ∧
      caseCollision casePairConfig.Apps ∧
      (Validate sampleDeps casePairConfig).2 = some .ERR_APP_LABEL_DUPLICATE ∧
      caseCollision servicePairConfig.Services ∧
      (Validate sampleDeps servicePairConfig).2 ≠ none ∧
      (Validate sampleDeps servicePairConfig).2 = some .ERR_SERVICE_LABEL_DUPLICATE :=
  have hc : caseCollision casePairConfig.Apps :=
    ⟨("Foo", some ⟨1, "foo"⟩), by simp [casePairConfig, emptyConfig], ("foo", some ⟨1, "foo"⟩),
      by simp [casePairConfig, emptyConfig], by decide, by decide⟩
  have hs : caseCollision servicePairConfig.Services :=
    ⟨("Db", some ⟨"db"⟩), by simp [servicePairConfig, emptyConfig], ("dB", some ⟨"db"⟩),
      by simp [servicePairConfig, emptyConfig], by decide, by decide⟩
  have hall : ∀ p ∈ casePairConfig.Apps, appEntryOK sampleDeps p := by
    intro p hp
    simp only [casePairConfig, emptyConfig, List.mem_cons, List.mem_singleton,
      List.not_mem_nil, or_false] at hp
    rcases hp with rfl | rfl <;> exact ⟨by decide, by decide, _, rfl, _, rfl⟩
  have hall' : ∀ p ∈ servicePairConfig.Apps, appEntryOK sampleDeps p := by
    intro p hp
    simp only [servicePairConfig, emptyConfig, List.mem_cons, List.mem_singleton,
      List.not_mem_nil, or_false] at hp
    subst hp
    exact ⟨by decide, by decide, _, rfl, _, rfl⟩
  have hsall : ∀ p ∈ servicePairConfig.Services, serviceEntryOK sampleDeps p := by
    intro p hp
    simp only [servicePairConfig, emptyConfig, List.mem_cons, List.mem_singleton,
      List.not_mem_nil, or_false] at hp
    rcases hp with rfl | rfl <;> exact ⟨by decide, by decide, _, rfl, _, rfl⟩
  ⟨by decide, hc, (Validate_case_pair sampleDeps casePairConfig (by decide)).2.1 hc hall, hs,
    (Validate_case_pair sampleDeps servicePairConfig (by decide)).1 (Or.inr hs),
    (Validate_case_pair sampleDeps servicePairConfig (by decide)).2.2 hs hall' (by decide)
      (fun _ => by decide) (fun _ => by decide) hsall⟩

/-- C4. For every config whose apps all pass the per-entry checks (legal key,
non-nil entity, entity validation succeeds, no case-insensitive duplicate): if
at least one app has keep-alive `APP_KEEPALIVE_HTTP` and `ListenHTTP` is empty,
`Validate` returns `ERR_LISTEN_HTTP_EMPTY`, whatever other apps and services
the config holds. -/
theorem Validate_listen_http_empty (D : Deps) (c : Config)
    (hall : ∀ p ∈ c.Apps, appEntryOK D p) (hnd : (lowerKeys c.Apps).Nodup)
    (hex : ∃ p ∈ c.Apps, hasKeepAlive D D.APP_KEEPALIVE_HTTP p) (hl : c.ListenHTTP = []) :
    (Validate D c).2 = some .ERR_LISTEN_HTTP_EMPTY := by
  have ha := (appsLoop_ok_iff D c.Apps _).mpr ⟨hall, hnd, rfl⟩
  have hf := (httpFlag_iff D c.Apps hall).mpr hex
  rcases Validate_cases D c with ⟨h1, _, _⟩ | ⟨_, ⟨e, ha', _⟩ | ⟨apps', http', udp', ha',
    ⟨_, _, hv⟩ | ⟨hx, _, _, _⟩ | ⟨hx, _, _⟩⟩⟩
  · obtain ⟨p, hp, _⟩ := hex
    rw [h1] at hp
    exact absurd hp (List.not_mem_nil p)
  · rw [ha] at ha'
    exact Except.noConfusion ha'
  · rw [hv]
  · rw [ha] at ha'
    have h1 : (flagsAfter (appCheck D) (appFlags D) c.Apps (false, false)).1 = http' :=
      congrArg (fun r => r.2.1) (Except.ok.inj ha')
    exact absurd ⟨h1.symm.trans hf, hl⟩ hx
  · rw [ha] at ha'
    have h1 : (flagsAfter (appCheck D) (appFlags D) c.Apps (false, false)).1 = http' :=
      congrArg (fun r => r.2.1) (Except.ok.inj ha')
    exact absurd ⟨h1.symm.trans hf, hl⟩ hx

/-- Witness of C4 on `httpConfig`. -/
theorem Validate_listen_http_empty_witness :
    (∃ p ∈ httpConfig.Apps, hasKeepAlive sampleDeps sampleDeps.APP_KEEPALIVE_HTTP p) ∧
      httpConfig.ListenHTTP = [] ∧
      (Validate sampleDeps httpConfig).2 = some .ERR_LISTEN_HTTP_EMPTY :=
  have hall : ∀ p ∈ httpConfig.Apps, appEntryOK sampleDeps p := by
    intro p hp
    simp only [httpConfig, emptyConfig, List.mem_cons, List.mem_singleton,
      List.not_mem_nil, or_false] at hp
    rcases hp with rfl | rfl <;> exact ⟨by decide, by decide, _, rfl, _, rfl⟩
  have hex : ∃ p ∈ httpConfig.Apps, hasKeepAlive sampleDeps sampleDeps.APP_KEEPALIVE_HTTP p :=
    ⟨("Web", some ⟨3, "web"⟩), by simp [httpConfig, emptyConfig], _, _, rfl, rfl, rfl⟩
  ⟨hex, rfl, Validate_listen_http_empty sampleDeps httpConfig hall (by decide) hex rfl⟩

/-- C5 (as stated, refuted). Every app of `bothKeepAliveConfig` passes the
per-entry checks, one app has keep-alive `APP_KEEPALIVE_UDP` and `ListenUDP`
is empty, and `Validate` returns `ERR_LISTEN_HTTP_EMPTY`, not
`ERR_LISTEN_UDP_EMPTY`: the HTTP listener is checked first. -/
theorem Validate_listen_udp_counterexample :
    (∀ p ∈ bothKeepAliveConfig.Apps, appEntryOK sampleDeps p) ∧
      (lowerKeys bothKeepAliveConfig.Apps).Nodup ∧
      (∃ p ∈ bothKeepAliveConfig.Apps,
        hasKeepAlive sampleDeps sampleDeps.APP_KEEPALIVE_UDP p) ∧
      bothKeepAliveConfig.ListenUDP = [] ∧
      (Validate sampleDeps bothKeepAliveConfig).2 = some .ERR_LISTEN_HTTP_EMPTY ∧
      (Validate sampleDeps bothKeepAliveConfig).2 ≠ some .ERR_LISTEN_UDP_EMPTY := by
  refine ⟨?_, by decide, ?_, rfl, by decide, by decide⟩
  · intro p hp
    simp only [bothKeepAliveConfig, emptyConfig, List.mem_cons, List.mem_singleton,
      List.not_mem_nil, or_false] at hp
    rcases hp with rfl | rfl <;> exact ⟨by decide, by decide, _, rfl, _, rfl⟩
  · exact ⟨("dns", some ⟨4, "dns"⟩), by simp [bothKeepAliveConfig, emptyConfig], _, _, rfl, rfl,
      rfl⟩

/-- C5 (amended). For every config whose apps all pass the per-entry checks
(legal key, non-nil entity, entity validation succeeds, no case-insensitive
duplicate): if at least one app has keep-alive `APP_KEEPALIVE_UDP`, `ListenUDP`
is empty, and the HTTP listener check does not fire (no app has keep-alive
`APP_KEEPALIVE_HTTP`, or `ListenHTTP` is not empty), `Validate` returns
`ERR_LISTEN_UDP_EMPTY`, whatever other apps and services the config holds. The
two keep-alive constants are distinct. -/
theorem Validate_listen_udp_empty (D : Deps) (c : Config)
    (hk : D.APP_KEEPALIVE_HTTP ≠ D.APP_KEEPALIVE_UDP)
    (hall : ∀ p ∈ c.Apps, appEntryOK D p) (hnd : (lowerKeys c.Apps).Nodup)
    (hex : ∃ p ∈ c.Apps, hasKeepAlive D D.APP_KEEPALIVE_UDP p) (hl : c.ListenUDP = [])
    (hh : (¬ ∃ p ∈ c.Apps, hasKeepAlive D D.APP_KEEPALIVE_HTTP p) ∨ c.ListenHTTP ≠ []) :
    (Validate D c).2 = some .ERR_LISTEN_UDP_EMPTY := by
  obtain ⟨http, udp, ha, hhttp, hudp⟩ := appsPhase_ok D c hk hall hnd
  rcases Validate_cases D c with ⟨h1, _, _⟩ | ⟨_, ⟨e, ha', _⟩ | ⟨apps', http', udp', ha',
    ⟨hx, hl', _⟩ | ⟨_, _, _, hv⟩ | ⟨_, hx, _⟩⟩⟩
  · obtain ⟨p, hp, _⟩ := hex
    rw [h1] at hp
    exact absurd hp (List.not_mem_nil p)
  · rw [ha] at ha'
    exact Except.noConfusion ha'
  · rw [ha] at ha'
    injection ha' with ha'
    injection ha' with _ ha'
    injection ha' with h1 _
    rcases hh with hh | hh
    · exact absurd (hhttp.mp (h1.trans hx)) hh
    · exact absurd hl' hh
  · rw [hv]
  · rw [ha] at ha'
    injection ha' with ha'
    injection ha' with _ ha'
    injection ha' with _ h2
    exact absurd ⟨h2.symm.trans (hudp.mpr hex), hl⟩ hx

/-- Witness of C5 (amended) on `udpConfig`. -/
theorem Validate_listen_udp_empty_witness :
    sampleDeps.APP_KEEPALIVE_HTTP ≠ sampleDeps.APP_KEEPALIVE_UDP ∧
      (∃ p ∈ udpConfig.Apps, hasKeepAlive sampleDeps sampleDeps.APP_KEEPALIVE_UDP p) ∧
      udpConfig.ListenUDP = [] ∧ udpConfig.ListenHTTP ≠ [] ∧
      (Validate sampleDeps udpConfig).2 = some .ERR_LISTEN_UDP_EMPTY :=
  have hall : ∀ p ∈ udpConfig.Apps, appEntryOK sampleDeps p := by
    intro p hp
    simp only [udpConfig, emptyConfig, List.mem_cons, List.mem_singleton,
      List.not_mem_nil, or_false] at hp
    rcases hp with rfl | rfl <;> exact ⟨by decide, by decide, _, rfl, _, rfl⟩
  have hex : ∃ p ∈ udpConfig.Apps, hasKeepAlive sampleDeps sampleDeps.APP_KEEPALIVE_UDP p :=
    ⟨("Dns", some ⟨4, "dns"⟩), by simp [udpConfig, emptyConfig], _, _, rfl, rfl, rfl⟩
  ⟨by decide, hex, rfl, by decide,
    Validate_listen_udp_empty sampleDeps udpConfig (by decide) hall (by decide) hex rfl
      (Or.inr (by decide))⟩

theorem clampTunables_TickEvery (D : Deps) (c : Config) :
    (clampTunables D c).TickEvery
      = clampSpec D.TICKEVERY_DEFAULT D.TICKEVERY_MIN D.TICKEVERY_MAX c.TickEvery := by
  simp only [clampTunables, clampSpec]
  by_cases h : c.TickEvery = 0
  · simp [h]
  · simp [h]

theorem clampTunables_History (D : Deps) (c : Config) :
    (clampTunables D c).History
      = clampSpec D.HISTORY_DEFAULT D.HISTORY_MIN D.HISTORY_MAX c.History := by
  simp only [clampTunables, clampSpec]
  by_cases h : c.History = 0
  · simp [h]
  · simp [h]

/-- The error `Validate` returns depends on the two maps and the two listener
lists only. -/
theorem Validate_error_congr (D : Deps) (c c' : Config) (h1 : c'.Apps = c.Apps)
    (h2 : c'.Services = c.Services) (h3 : c'.ListenHTTP = c.ListenHTTP)
    (h4 : c'.ListenUDP = c.ListenUDP) : (Validate D c').2 = (Validate D c).2 := by
  simp only [Validate, h1, h2, h3, h4]
  by_cases h0 : c.Apps.length = 0 ∧ c.Services.length = 0
  · rw [if_pos h0, if_pos h0]
  rw [if_neg h0, if_neg h0]
  cases appsLoop D c.Apps [] false false with
  | error e => rfl
  | ok r =>
    obtain ⟨apps, http, udp⟩ := r
    simp only
    by_cases hh : http = true ∧ c.ListenHTTP.length = 0
    · rw [if_pos hh, if_pos hh]
    rw [if_neg hh, if_neg hh]
    by_cases hu : udp = true ∧ c.ListenUDP.length = 0
    · rw [if_pos hu, if_pos hu]
    rw [if_neg hu, if_neg hu]
    cases servicesLoop D c.Services [] with
    | error e => rfl
    | ok sv => rfl

/-- C6. When `Config.Validate` returns no error, the resulting `TickEvery` and
`History` are each determined from the declared value `v` by the component's
own constants: `DEFAULT` if `v = 0`, `MIN` if `v ≠ 0` and `v < MIN`, `MAX` if
`v > MAX`, and `v` otherwise. In particular a declared tick interval of
`999999` does not make validation fail, and becomes `TICKEVERY_MAX` (for
constants with `TICKEVERY_MIN ≤ 999999` and `TICKEVERY_MAX < 999999`). -/
theorem Validate_clamp_tick_history (D : Deps) (c : Config) (h : (Validate D c).2 = none) :
    (Validate D c).1.TickEvery
        = clampSpec D.TICKEVERY_DEFAULT D.TICKEVERY_MIN D.TICKEVERY_MAX c.TickEvery ∧
      (Validate D c).1.History
        = clampSpec D.HISTORY_DEFAULT D.HISTORY_MIN D.HISTORY_MAX c.History ∧
      (Validate D { c with TickEvery := 999999 }).2 = none ∧
      (D.TICKEVERY_MIN ≤ 999999 → D.TICKEVERY_MAX < 999999 →
        (Validate D { c with TickEvery := 999999 }).1.TickEvery = D.TICKEVERY_MAX) := by
  have h' : (Validate D { c with TickEvery := 999999 }).2 = none :=
    (Validate_error_congr D c { c with TickEvery := 999999 } rfl rfl rfl rfl).trans h
  refine ⟨?_, ?_, h', fun hmin hmax => ?_⟩
  · rw [Validate_ok_result D c h, clampTunables_TickEvery]
  · rw [Validate_ok_result D c h, clampTunables_History]
  · rw [Validate_ok_result D _ h', clampTunables_TickEvery]
    simp only [clampSpec]
    rw [if_neg (by decide), if_neg (fun hx => absurd hx.2 (not_lt.mpr hmin)), if_pos hmax]

/-- Witness of C6 on `tickConfig` and `webConfig`. -/
theorem Validate_clamp_tick_history_witness :
    (Validate sampleDeps tickConfig).2 = none ∧
      (Validate sampleDeps tickConfig).1.TickEvery = sampleDeps.TICKEVERY_MAX ∧
      (Validate sampleDeps tickConfig).1.History = sampleDeps.HISTORY_MIN ∧
      (Validate sampleDeps webConfig).1.TickEvery = sampleDeps.TICKEVERY_DEFAULT :=
  ⟨by decide,
    (Validate_clamp_tick_history sampleDeps tickConfig (by decide)).1.trans (by decide),
    (Validate_clamp_tick_history sampleDeps tickConfig (by decide)).2.1.trans (by decide),
    (Validate_clamp_tick_history sampleDeps webConfig (by decide)).1.trans (by decide)⟩

theorem clampTunables_PingTimeout (D : Deps) (c : Config) :
    (clampTunables D c).PingTimeout
      = if c.PingTimeout = 0 then D.APP_PING_TIMEOUT_DEFAULT
        else if c.PingTimeout < D.HISTORY_MIN then D.APP_PING_TIMEOUT_MIN
        else if c.PingTimeout > D.HISTORY_MAX then D.APP_PING_TIMEOUT_MAX
        else c.PingTimeout := rfl

/-- C7 (the code at the failing inputs). When `Config.Validate` returns no
error, a declared `PingTimeout` that is non-zero and lies within
`[HISTORY_MIN, HISTORY_MAX]` is left as declared, whatever
`APP_PING_TIMEOUT_MIN` and `APP_PING_TIMEOUT_MAX` are: the resulting value is
outside the ping-timeout bounds whenever the declared one is. -/
theorem Validate_pingTimeout_history_bounds (D : Deps) (c : Config)
    (h : (Validate D c).2 = none) (h0 : c.PingTimeout ≠ 0)
    (hmin : D.HISTORY_MIN ≤ c.PingTimeout) (hmax : c.PingTimeout ≤ D.HISTORY_MAX) :
    (Validate D c).1.PingTimeout = c.PingTimeout := by
  rw [Validate_ok_result D c h, clampTunables_PingTimeout]
  simp only
  rw [if_neg h0, if_neg (not_lt.mpr hmin), if_neg (not_lt.mpr hmax)]

/-- Witness of C7 on `pingConfig`: a declared ping timeout of `500` stays `500`,
above the sample `APP_PING_TIMEOUT_MAX`. -/
theorem Validate_pingTimeout_history_bounds_witness :
    (Validate sampleDeps pingConfig).2 = none ∧
      pingConfig.PingTimeout = 500 ∧
      (Validate sampleDeps pingConfig).1.PingTimeout = 500 ∧
      sampleDeps.APP_PING_TIMEOUT_MAX < (Validate sampleDeps pingConfig).1.PingTimeout :=
  ⟨by decide, rfl,
    Validate_pingTimeout_history_bounds sampleDeps pingConfig (by decide) (by decide)
      (by decide) (by decide),
    by decide⟩

/-- C8 (the code at the failing input). With the parameters `pingSkewDeps`,
whose components are each ordered `0 < MIN ≤ DEFAULT ≤ MAX`, validating
`webConfig` succeeds and yields `PingTimeout = 3`; validating the result again
succeeds, leaves `TickEvery` and `History` unchanged and changes `PingTimeout`
to `1`. -/
theorem Validate_twice_pingTimeout :
    (0 < pingSkewDeps.TICKEVERY_MIN ∧ pingSkewDeps.TICKEVERY_MIN ≤ pingSkewDeps.TICKEVERY_DEFAULT ∧
      pingSkewDeps.TICKEVERY_DEFAULT ≤ pingSkewDeps.TICKEVERY_MAX) ∧
    (0 < pingSkewDeps.HISTORY_MIN ∧ pingSkewDeps.HISTORY_MIN ≤ pingSkewDeps.HISTORY_DEFAULT ∧
      pingSkewDeps.HISTORY_DEFAULT ≤ pingSkewDeps.HISTORY_MAX) ∧
    (0 < pingSkewDeps.APP_PING_TIMEOUT_MIN ∧
      pingSkewDeps.APP_PING_TIMEOUT_MIN ≤ pingSkewDeps.APP_PING_TIMEOUT_DEFAULT ∧
      pingSkewDeps.APP_PING_TIMEOUT_DEFAULT ≤ pingSkewDeps.APP_PING_TIMEOUT_MAX) ∧
    (Validate pingSkewDeps webConfig).2 = none ∧
    (Validate pingSkewDeps (Validate pingSkewDeps webConfig).1).2 = none ∧
    (Validate pingSkewDeps (Validate pingSkewDeps webConfig).1).1.TickEvery
      = (Validate pingSkewDeps webConfig).1.TickEvery ∧
    (Validate pingSkewDeps (Validate pingSkewDeps webConfig).1).1.History
      = (Validate pingSkewDeps webConfig).1.History ∧
    (Validate pingSkewDeps webConfig).1.PingTimeout = 3 ∧
    (Validate pingSkewDeps (Validate pingSkewDeps webConfig).1).1.PingTimeout = 1 := by
  decide

/-- The part of idempotence that holds for all parameters: when a component's
constants are ordered `0 < MIN ≤ DEFAULT ≤ MAX`, a second validation leaves
the `TickEvery` and the `History` of a first one unchanged. -/
theorem Validate_twice_tick_history (D : Deps) (c c2 : Config)
    (ht : 0 < D.TICKEVERY_MIN ∧ D.TICKEVERY_MIN ≤ D.TICKEVERY_DEFAULT ∧
      D.TICKEVERY_DEFAULT ≤ D.TICKEVERY_MAX)
    (hh : 0 < D.HISTORY_MIN ∧ D.HISTORY_MIN ≤ D.HISTORY_DEFAULT ∧
      D.HISTORY_DEFAULT ≤ D.HISTORY_MAX)
    (h : (Validate D c).2 = none) (h2 : (Validate D c2).2 = none)
    (et : c2.TickEvery = (Validate D c).1.TickEvery)
    (eh : c2.History = (Validate D c).1.History) :
    (Validate D c2).1.TickEvery = c2.TickEvery ∧ (Validate D c2).1.History = c2.History := by
  rw [Validate_ok_result D c h, clampTunables_TickEvery] at et
  rw [Validate_ok_result D c h, clampTunables_History] at eh
  rw [Validate_ok_result D c2 h2, clampTunables_TickEvery, clampTunables_History, et, eh]
  simp only [clampSpec]
  constructor
  · split_ifs <;> omega
  · split_ifs <;> omega

/-- C9. `Config.Validate` returns `ERR_PATROL_EMPTY` if and only if both the
apps map and the services map of the input are empty; in that case the config
is left unchanged (and nothing else of the config is looked at: the error is
`ERR_PATROL_EMPTY` whatever the other fields hold). -/
theorem Validate_patrol_empty (D : Deps) (c : Config) :
    ((Validate D c).2 = some .ERR_PATROL_EMPTY ↔ c.Apps = [] ∧ c.Services = []) ∧
      (c.Apps = [] ∧ c.Services = [] → (Validate D c).1 = c) := by
  rcases Validate_cases D c with ⟨h1, h2, hv⟩ | ⟨h0, ⟨e, ha, hv⟩ |
    ⟨apps, http, udp, ha, ⟨_, _, hv⟩ | ⟨_, _, _, hv⟩ | ⟨_, _, ⟨e, hs, hv⟩ | ⟨sv, hs, hv⟩⟩⟩⟩
  · rw [hv]
    exact ⟨⟨fun _ => ⟨h1, h2⟩, fun _ => rfl⟩, fun _ => rfl⟩
  · rw [hv]
    refine ⟨⟨fun h => ?_, fun h => absurd h h0⟩, fun h => absurd h h0⟩
    have he : e = .ERR_PATROL_EMPTY := (Option.some.inj h)
    rcases appsLoop_error D c.Apps e ha with ⟨h1, _⟩ | ⟨p, _, hc⟩
    · rw [h1] at he
      exact Error.noConfusion he
    · exact absurd he (appCheck_ne_dup D _ _ e hc).2.2.1
  · rw [hv]
    exact ⟨⟨fun h => Error.noConfusion (Option.some.inj h), fun h => absurd h h0⟩,
      fun h => absurd h h0⟩
  · rw [hv]
    exact ⟨⟨fun h => Error.noConfusion (Option.some.inj h), fun h => absurd h h0⟩,
      fun h => absurd h h0⟩
  · rw [hv]
    refine ⟨⟨fun h => ?_, fun h => absurd h h0⟩, fun h => absurd h h0⟩
    have he : e = .ERR_PATROL_EMPTY := (Option.some.inj h)
    rcases servicesLoop_error D c.Services e hs with ⟨h1, _⟩ | ⟨p, _, hc⟩
    · rw [h1] at he
      exact Error.noConfusion he
    · exact absurd he (serviceCheck_ne_dup D _ _ e hc).2.2.1
  · rw [hv]
    exact ⟨⟨fun h => Option.noConfusion h, fun h => absurd h h0⟩, fun h => absurd h h0⟩

/-- Witness of C9 on `noEntityConfig` and `webConfig`. -/
theorem Validate_patrol_empty_witness :
    Validate sampleDeps noEntityConfig = (noEntityConfig, some .ERR_PATROL_EMPTY) ∧
      (Validate sampleDeps webConfig).2 ≠ some .ERR_PATROL_EMPTY :=
  ⟨Prod.ext ((Validate_patrol_empty sampleDeps noEntityConfig).2 ⟨rfl, rfl⟩)
      (((Validate_patrol_empty sampleDeps noEntityConfig).1).mpr ⟨rfl, rfl⟩),
    fun h => absurd (((Validate_patrol_empty sampleDeps webConfig).1).mp h).1 (by decide)⟩

/-- C10. Apps and services are independent namespaces for duplicate
detection: when no two app keys are equal after lowercasing and no two service
keys are equal after lowercasing, `Config.Validate` returns neither
`ERR_APP_LABEL_DUPLICATE` nor `ERR_SERVICE_LABEL_DUPLICATE`, even when an app
key and a service key have the same lowercase form. -/
theorem Validate_namespaces_independent (D : Deps) (c : Config)
    (hna : (lowerKeys c.Apps).Nodup) (hns : (lowerKeys c.Services).Nodup) :
    (Validate D c).2 ≠ some .ERR_APP_LABEL_DUPLICATE ∧
      (Validate D c).2 ≠ some .ERR_SERVICE_LABEL_DUPLICATE := by
  rcases Validate_cases D c with ⟨_, _, hv⟩ | ⟨_, ⟨e, ha, hv⟩ |
    ⟨apps, http, udp, ha, ⟨_, _, hv⟩ | ⟨_, _, _, hv⟩ | ⟨_, _, ⟨e, hs, hv⟩ | ⟨sv, hs, hv⟩⟩⟩⟩
  · rw [hv]
    exact ⟨fun h => Error.noConfusion (Option.some.inj h),
      fun h => Error.noConfusion (Option.some.inj h)⟩
  · rw [hv]
    rcases appsLoop_error D c.Apps e ha with ⟨_, h1⟩ | ⟨p, _, hc⟩
    · exact absurd hna h1
    · exact ⟨fun h => (appCheck_ne_dup D _ _ e hc).1 (Option.some.inj h),
        fun h => (appCheck_ne_dup D _ _ e hc).2.1 (Option.some.inj h)⟩
  · rw [hv]
    exact ⟨fun h => Error.noConfusion (Option.some.inj h),
      fun h => Error.noConfusion (Option.some.inj h)⟩
  · rw [hv]
    exact ⟨fun h => Error.noConfusion (Option.some.inj h),
      fun h => Error.noConfusion (Option.some.inj h)⟩
  · rw [hv]
    rcases servicesLoop_error D c.Services e hs with ⟨_, h1⟩ | ⟨p, _, hc⟩
    · exact absurd hns h1
    · exact ⟨fun h => (serviceCheck_ne_dup D _ _ e hc).1 (Option.some.inj h),
        fun h => (serviceCheck_ne_dup D _ _ e hc).2.1 (Option.some.inj h)⟩
  · rw [hv]
    exact ⟨fun h => Option.noConfusion h, fun h => Option.noConfusion h⟩

/-- Witness of C10 on `crossConfig`: app `A` and service `a` validate. -/
theorem Validate_namespaces_independent_witness :
    lowerKeys crossConfig.Apps = lowerKeys crossConfig.Services ∧
      (Validate sampleDeps crossConfig).2 = none ∧
      ((Validate sampleDeps crossConfig).2 ≠ some .ERR_APP_LABEL_DUPLICATE ∧
        (Validate sampleDeps crossConfig).2 ≠ some .ERR_SERVICE_LABEL_DUPLICATE) :=
  ⟨by decide, by decide,
    Validate_namespaces_independent sampleDeps crossConfig (by decide) (by decide)⟩

/-- C11 (the code at the failing input). `LoadConfig` never returns
`ERR_CONFIG_NIL`. On a readable file whose content is the document `null`,
which `Decode` accepts and which leaves a struct untouched, `LoadConfig`
returns the zero-value `Config` and no error. -/
theorem LoadConfig_null (L : Loader) (path : String)
    (hopen : L.Open path = .ok "null")
    (hnull : L.Decode "null" emptyConfig = .ok emptyConfig) :
    LoadConfig L path = (some emptyConfig, none) ∧
      ∀ path', (LoadConfig L path').2 ≠ some .ERR_CONFIG_NIL := by
  constructor
  · simp [LoadConfig, hopen, hnull]
  · intro path'
    cases h1 : L.Open path' with
    | error e => simp [LoadConfig, h1]
    | ok file =>
      cases h2 : L.Decode file emptyConfig with
      | error e => simp [LoadConfig, h1, h2]
      | ok pointee => simp [LoadConfig, h1, h2]

/-- Witness of C11 on `sampleLoader`: the file holding `null` loads as the
zero-value `Config` without an error, the file holding a broken document
fails with the decode error. -/
theorem LoadConfig_null_witness :
    LoadConfig sampleLoader "null.json" = (some emptyConfig, none) ∧
      (LoadConfig sampleLoader "null.json").2 ≠ some .ERR_CONFIG_NIL ∧
      LoadConfig sampleLoader "broken.json"
        = (none, some (.json "unexpected end of JSON input")) :=
  ⟨(LoadConfig_null sampleLoader "null.json" rfl rfl).1,
    (LoadConfig_null sampleLoader "null.json" rfl rfl).2 "null.json", by decide⟩
theorem appCheck_error_cases (D : Deps) (p : String × Option ConfigApp) (e : Error)
    (h : appCheck D p.1 p.2 = .error e) :
    (e = .ERR_APPS_KEY_EMPTY ∨ e = .ERR_APPS_KEY_INVALID ∨ e = .ERR_APPS_APP_NIL) ∨
      ∃ a msg, p.2 = some a ∧ D.appValidate (D.appClone a) = .error msg ∧ e = .entity msg := by
  rcases appCheck_error D p.1 p.2 e h with h | h | h | h
  · exact Or.inl (Or.inl h)
  · exact Or.inl (Or.inr (Or.inl h))
  · exact Or.inl (Or.inr (Or.inr h))
  · exact Or.inr h

theorem serviceCheck_error_cases (D : Deps) (p : String × Option ConfigService) (e : Error)
    (h : serviceCheck D p.1 p.2 = .error e) :
    (e = .ERR_SERVICES_KEY_EMPTY ∨ e = .ERR_SERVICES_KEY_INVALID ∨
        e = .ERR_SERVICES_SERVICE_NIL) ∨
      ∃ a msg, p.2 = some a ∧ D.serviceValidate (D.serviceClone a) = .error msg ∧
        e = .entity msg := by
  rcases serviceCheck_error D p.1 p.2 e h with h | h | h | h
  · exact Or.inl (Or.inl h)
  · exact Or.inl (Or.inr (Or.inl h))
  · exact Or.inl (Or.inr (Or.inr h))
  · exact Or.inr h

/-- C15. Entity validation errors are propagated verbatim: whenever
`Config.Validate` returns an error that is not one of its own sentinel errors,
that error is the error returned by the own `Validate` of the clone of some
app or service entity of the input config. -/
theorem Validate_entity_error (D : Deps) (c : Config) (e : Error)
    (h : (Validate D c).2 = some e) (hs : e ∉ ownSentinels) :
    (∃ p ∈ c.Apps, ∃ a msg, p.2 = some a ∧ D.appValidate (D.appClone a) = .error msg ∧
        e = .entity msg) ∨
      (∃ p ∈ c.Services, ∃ a msg, p.2 = some a ∧
        D.serviceValidate (D.serviceClone a) = .error msg ∧ e = .entity msg) := by
  simp only [ownSentinels, List.mem_cons, List.mem_singleton, List.not_mem_nil, or_false,
    not_or] at hs
  obtain ⟨s1, s2, s3, s4, s5, s6, s7, s8, s9, s10, s11⟩ := hs
  rcases Validate_cases D c with ⟨_, _, hv⟩ | ⟨_, ⟨e', ha, hv⟩ |
    ⟨apps, http, udp, ha, ⟨_, _, hv⟩ | ⟨_, _, _, hv⟩ | ⟨_, _, ⟨e', hs', hv⟩ | ⟨sv, hs', hv⟩⟩⟩⟩
  · rw [hv] at h
    exact absurd (Option.some.inj h).symm s1
  · rw [hv] at h
    have he : e' = e := Option.some.inj h
    subst he
    rcases appsLoop_error D c.Apps e' ha with ⟨h1, _⟩ | ⟨p, hp, hc⟩
    · exact absurd h1 s8
    · rcases appCheck_error_cases D p e' hc with (h1 | h1 | h1) | h1
      · exact absurd h1 s2
      · exact absurd h1 s3
      · exact absurd h1 s4
      · exact Or.inl ⟨p, hp, h1⟩
  · rw [hv] at h
    exact absurd (Option.some.inj h).symm s10
  · rw [hv] at h
    exact absurd (Option.some.inj h).symm s11
  · rw [hv] at h
    have he : e' = e := Option.some.inj h
    subst he
    rcases servicesLoop_error D c.Services e' hs' with ⟨h1, _⟩ | ⟨p, hp, hc⟩
    · exact absurd h1 s9
    · rcases serviceCheck_error_cases D p e' hc with (h1 | h1 | h1) | h1
      · exact absurd h1 s5
      · exact absurd h1 s6
      · exact absurd h1 s7
      · exact Or.inr ⟨p, hp, h1⟩
  · rw [hv] at h
    exact Option.noConfusion h

/-- Witness of C15 on `badAppConfig`: the error of the sample app validation
comes back as it is. -/
theorem Validate_entity_error_witness :
    (Validate sampleDeps badAppConfig).2 = some (.entity "App Name was empty") ∧
      ((∃ p ∈ badAppConfig.Apps, ∃ a msg, p.2 = some a ∧
          sampleDeps.appValidate (sampleDeps.appClone a) = .error msg ∧
          Error.entity "App Name was empty" = .entity msg) ∨
        (∃ p ∈ badAppConfig.Services, ∃ a msg, p.2 = some a ∧
          sampleDeps.serviceValidate (sampleDeps.serviceClone a) = .error msg ∧
          Error.entity "App Name was empty" = .entity msg)) :=
  ⟨by decide,
    Validate_entity_error sampleDeps badAppConfig (.entity "App Name was empty") (by decide)
      (by decide)⟩

/-- C16. The listener cross-check considers only accepted apps: whenever
`Config.Validate` returns `ERR_LISTEN_HTTP_EMPTY` or `ERR_LISTEN_UDP_EMPTY`,
every app entry of the input has a non-empty key accepted by `IsAppServiceID`
and a non-nil entity whose own validation succeeded, and no two app keys are
equal after lowercasing; the keep-alive mode that asks for the listener is
that of such an accepted app. -/
theorem Validate_listen_error_accepted (D : Deps) (c : Config)
    (h : (Validate D c).2 = some .ERR_LISTEN_HTTP_EMPTY ∨
      (Validate D c).2 = some .ERR_LISTEN_UDP_EMPTY) :
    (∀ p ∈ c.Apps, appEntryOK D p) ∧ (lowerKeys c.Apps).Nodup ∧
      ((Validate D c).2 = some .ERR_LISTEN_HTTP_EMPTY →
        c.ListenHTTP = [] ∧ ∃ p ∈ c.Apps, hasKeepAlive D D.APP_KEEPALIVE_HTTP p) ∧
      ((Validate D c).2 = some .ERR_LISTEN_UDP_EMPTY →
        c.ListenUDP = [] ∧ ∃ p ∈ c.Apps, hasKeepAlive D D.APP_KEEPALIVE_UDP p) := by
  rcases Validate_cases D c with ⟨_, _, hv⟩ | ⟨_, ⟨e', ha, hv⟩ |
    ⟨apps, http, udp, ha, ⟨hh, hl, hv⟩ | ⟨_, hu, hl, hv⟩ | ⟨_, _, ⟨e', hs', hv⟩ | ⟨sv, hs', hv⟩⟩⟩⟩
  · rw [hv] at h
    rcases h with h | h <;> exact Error.noConfusion (Option.some.inj h)
  · rw [hv] at h
    have he : e' = .ERR_LISTEN_HTTP_EMPTY ∨ e' = .ERR_LISTEN_UDP_EMPTY :=
      h.imp Option.some.inj Option.some.inj
    rcases appsLoop_error D c.Apps e' ha with ⟨h1, _⟩ | ⟨p, _, hc⟩
    · rw [h1] at he
      rcases he with he | he <;> exact Error.noConfusion he
    · have hn := appCheck_ne_dup D _ _ e' hc
      rcases he with he | he
      · exact absurd he hn.2.2.2.1
      · exact absurd he hn.2.2.2.2
  · obtain ⟨hall, hnd, hr⟩ := (appsLoop_ok_iff D c.Apps _).mp ha
    have hf : (flagsAfter (appCheck D) (appFlags D) c.Apps (false, false)).1 = true := by
      rw [← hh]
      exact (congrArg (fun r => r.2.1) hr).symm
    rw [hv]
    exact ⟨hall, hnd, fun _ => ⟨hl, (httpFlag_iff D c.Apps hall).mp hf⟩,
      fun h' => Error.noConfusion (Option.some.inj h')⟩
  · obtain ⟨hall, hnd, hr⟩ := (appsLoop_ok_iff D c.Apps _).mp ha
    have hf : (flagsAfter (appCheck D) (appFlags D) c.Apps (false, false)).2 = true := by
      rw [← hu]
      exact (congrArg (fun r => r.2.2) hr).symm
    rw [hv]
    refine ⟨hall, hnd, fun h' => Error.noConfusion (Option.some.inj h'), fun _ => ⟨hl, ?_⟩⟩
    obtain ⟨p, hp, a', hc, _, h3⟩ := (flagsAfter_udp D c.Apps false false).mp hf |>.resolve_left
      (by decide)
    obtain ⟨_, _, a, h1, h2⟩ := (appCheck_ok_iff D p.1 p.2 a').mp hc
    exact ⟨p, hp, a, a', h1, h2, h3⟩
  · rw [hv] at h
    have he : e' = .ERR_LISTEN_HTTP_EMPTY ∨ e' = .ERR_LISTEN_UDP_EMPTY :=
      h.imp Option.some.inj Option.some.inj
    rcases servicesLoop_error D c.Services e' hs' with ⟨h1, _⟩ | ⟨p, _, hc⟩
    · rw [h1] at he
      rcases he with he | he <;> exact Error.noConfusion he
    · have hn := serviceCheck_ne_dup D _ _ e' hc
      rcases he with he | he
      · exact absurd he hn.2.2.2.1
      · exact absurd he hn.2.2.2.2
  · rw [hv] at h
    rcases h with h | h <;> exact Option.noConfusion h

/-- Witness of C16 on `httpConfig`, where the HTTP listener is missing. -/
theorem Validate_listen_error_accepted_witness :
    (Validate sampleDeps httpConfig).2 = some .ERR_LISTEN_HTTP_EMPTY ∧
      (∀ p ∈ httpConfig.Apps, appEntryOK sampleDeps p) ∧ (lowerKeys httpConfig.Apps).Nodup :=
  ⟨by decide,
    (Validate_listen_error_accepted sampleDeps httpConfig (Or.inl (by decide))).1,
    (Validate_listen_error_accepted sampleDeps httpConfig (Or.inl (by decide))).2.1⟩

/-- C17. Side effects of a failed validation are limited to the in-place
maps: whenever `Config.Validate` returns an error, `TickEvery`, `History`,
`PingTimeout`, `Timestamp`, `ListenHTTP`, `ListenUDP` and the services map are
as before the call. The apps map is as before the call when the error is
`ERR_PATROL_EMPTY`, a sentinel of the apps loop or a missing-listener error,
and when some app entry fails a per-entry check (which covers an app's own
validation error); it is the lowercased validated map only when the failure
occurred while processing services, and it is that map when the error is a
sentinel of the services loop. -/
theorem Validate_failure_frame (D : Deps) (c : Config) (e : Error)
    (h : (Validate D c).2 = some e) :
    (Validate D c).1.TickEvery = c.TickEvery ∧ (Validate D c).1.History = c.History ∧
    (Validate D c).1.PingTimeout = c.PingTimeout ∧ (Validate D c).1.Timestamp = c.Timestamp ∧
    (Validate D c).1.ListenHTTP = c.ListenHTTP ∧ (Validate D c).1.ListenUDP = c.ListenUDP ∧
    (Validate D c).1.Services = c.Services ∧
    (e ∈ appsPhaseSentinels → (Validate D c).1.Apps = c.Apps) ∧
    ((¬ ∀ p ∈ c.Apps, appEntryOK D p) → (Validate D c).1.Apps = c.Apps) ∧
    (e ∈ servicesPhaseSentinels → (Validate D c).1.Apps = rekeyed (appCheck D) c.Apps) ∧
    ((Validate D c).1.Apps = c.Apps ∨
      ((Validate D c).1.Apps = rekeyed (appCheck D) c.Apps ∧
        (e ∈ servicesPhaseSentinels ∨
          ∃ p ∈ c.Services, ∃ a msg, p.2 = some a ∧
            D.serviceValidate (D.serviceClone a) = .error msg ∧ e = .entity msg))) := by
  have hsent : ∀ e' : Error, e' ∈ servicesPhaseSentinels → e' ∉ appsPhaseSentinels := by
    intro e' h1 h2
    simp only [servicesPhaseSentinels, appsPhaseSentinels, List.mem_cons, List.mem_singleton,
      List.not_mem_nil, or_false] at h1 h2
    rcases h1 with h1 | h1 | h1 | h1 <;> subst h1 <;> simp at h2
  have hent : ∀ msg : String, Error.entity msg ∉ appsPhaseSentinels ∧
      Error.entity msg ∉ servicesPhaseSentinels := by
    intro msg
    simp [servicesPhaseSentinels, appsPhaseSentinels]
  rcases Validate_cases D c with ⟨_, _, hv⟩ | ⟨_, ⟨e', ha, hv⟩ |
    ⟨apps, http, udp, ha, ⟨_, _, hv⟩ | ⟨_, _, _, hv⟩ | ⟨_, _, ⟨e', hs', hv⟩ | ⟨sv, hs', hv⟩⟩⟩⟩
  · rw [hv] at h ⊢
    have he : e = .ERR_PATROL_EMPTY := (Option.some.inj h).symm
    refine ⟨rfl, rfl, rfl, rfl, rfl, rfl, rfl, fun _ => rfl, fun _ => rfl, fun h1 => ?_,
      Or.inl rfl⟩
    exact absurd (by simp [he, appsPhaseSentinels]) (hsent e h1)
  · rw [hv] at h ⊢
    have he : e' = e := Option.some.inj h
    subst he
    refine ⟨rfl, rfl, rfl, rfl, rfl, rfl, rfl, fun _ => rfl, fun _ => rfl, fun h1 => ?_,
      Or.inl rfl⟩
    rcases appsLoop_error D c.Apps e' ha with ⟨h2, _⟩ | ⟨p, _, hc⟩
    · exact absurd (by simp [h2, appsPhaseSentinels]) (hsent e' h1)
    · rcases appCheck_error_cases D p e' hc with (h2 | h2 | h2) | ⟨_, msg, _, _, h2⟩
      · exact absurd (by simp [h2, appsPhaseSentinels]) (hsent e' h1)
      · exact absurd (by simp [h2, appsPhaseSentinels]) (hsent e' h1)
      · exact absurd (by simp [h2, appsPhaseSentinels]) (hsent e' h1)
      · exact absurd (h2 ▸ h1) (hent msg).2
  · rw [hv] at h ⊢
    have he : e = .ERR_LISTEN_HTTP_EMPTY := (Option.some.inj h).symm
    refine ⟨rfl, rfl, rfl, rfl, rfl, rfl, rfl, fun _ => rfl, fun _ => rfl, fun h1 => ?_,
      Or.inl rfl⟩
    exact absurd (by simp [he, appsPhaseSentinels]) (hsent e h1)
  · rw [hv] at h ⊢
    have he : e = .ERR_LISTEN_UDP_EMPTY := (Option.some.inj h).symm
    refine ⟨rfl, rfl, rfl, rfl, rfl, rfl, rfl, fun _ => rfl, fun _ => rfl, fun h1 => ?_,
      Or.inl rfl⟩
    exact absurd (by simp [he, appsPhaseSentinels]) (hsent e h1)
  · rw [hv] at h ⊢
    have he : e' = e := Option.some.inj h
    subst he
    obtain ⟨hall, _, hr⟩ := (appsLoop_ok_iff D c.Apps _).mp ha
    have hap : apps = rekeyed (appCheck D) c.Apps := congrArg (fun r => r.1) hr
    have hsrc : e' ∈ servicesPhaseSentinels ∨
        ∃ p ∈ c.Services, ∃ a msg, p.2 = some a ∧
          D.serviceValidate (D.serviceClone a) = .error msg ∧ e' = .entity msg := by
      rcases servicesLoop_error D c.Services e' hs' with ⟨h2, _⟩ | ⟨p, hp, hc⟩
      · exact Or.inl (by simp [h2, servicesPhaseSentinels])
      · rcases serviceCheck_error_cases D p e' hc with (h2 | h2 | h2) | h2
        · exact Or.inl (by simp [h2, servicesPhaseSentinels])
        · exact Or.inl (by simp [h2, servicesPhaseSentinels])
        · exact Or.inl (by simp [h2, servicesPhaseSentinels])
        · exact Or.inr ⟨p, hp, h2⟩
    refine ⟨rfl, rfl, rfl, rfl, rfl, rfl, rfl, fun h1 => ?_, fun h1 => absurd hall h1,
      fun _ => hap, Or.inr ⟨hap, hsrc⟩⟩
    rcases hsrc with h2 | ⟨_, _, _, msg, _, _, h2⟩
    · exact absurd h1 (hsent e' h2)
    · exact absurd (h2 ▸ h1) (hent msg).1
  · rw [hv] at h
    exact Option.noConfusion h

/-- Witness of C17 on `nilServiceConfig`, which fails in the services loop:
the apps map has been replaced by its lowercased image, everything else is as
declared. -/
theorem Validate_failure_frame_witness :
    (Validate sampleDeps nilServiceConfig).2 = some .ERR_SERVICES_SERVICE_NIL ∧
      (Validate sampleDeps nilServiceConfig).1.TickEvery = 999999 ∧
      (Validate sampleDeps nilServiceConfig).1.Services = nilServiceConfig.Services ∧
      (Validate sampleDeps nilServiceConfig).1.Apps = [("web", some ⟨1, "web"⟩)] :=
  ⟨by decide,
    (Validate_failure_frame sampleDeps nilServiceConfig .ERR_SERVICES_SERVICE_NIL
      (by decide)).1,
    (Validate_failure_frame sampleDeps nilServiceConfig .ERR_SERVICES_SERVICE_NIL
      (by decide)).2.2.2.2.2.2.1,
    ((Validate_failure_frame sampleDeps nilServiceConfig .ERR_SERVICES_SERVICE_NIL
      (by decide)).2.2.2.2.2.2.2.2.2.1 (by decide)).trans (by decide)⟩

theorem lookup_of_mem_nodup {β : Type} (l : List (String × β)) (k : String) (v : β)
    (hm : (k, v) ∈ l) (hnd : (l.map Prod.fst).Nodup) : l.lookup k = some v := by
  induction l with
  | nil => exact absurd hm (List.not_mem_nil _)
  | cons q l ih =>
    obtain ⟨k', v'⟩ := q
    simp only [List.map_cons, List.nodup_cons, List.mem_map, not_exists, not_and] at hnd
    rcases List.mem_cons.mp hm with h | h
    · injection h with h1 h2
      subst h1 h2
      simp [List.lookup]
    · have hne : k ≠ k' := fun he => hnd.1 (k, v) h he
      have hb : (k == k') = false := by simpa using hne
      simp only [List.lookup, hb]
      exact ih h hnd.2

theorem clampTunables_Apps (D : Deps) (c : Config) : (clampTunables D c).Apps = c.Apps := rfl

theorem clampTunables_Services (D : Deps) (c : Config) :
    (clampTunables D c).Services = c.Services := rfl

theorem rekeyed_keys {α : Type} (chk : String → Option α → Except Error α)
    (m : List (String × Option α)) : (rekeyed chk m).map Prod.fst = lowerKeys m := by
  simp [rekeyed, lowerKeys]

/-- C18. When `Config.Validate` returns no error, the resulting apps map is
the lowercased image of the input apps map: it has as many entries as the
input, its keys are the `ToLower k` of the input keys `k`, no two of them
equal, and the value under `ToLower k` is the validated clone of the input
entity under `k`. The same holds for services. No entry is lost or merged. -/
theorem Validate_ok_image (D : Deps) (c : Config) (h : (Validate D c).2 = none) :
    ((Validate D c).1.Apps.length = c.Apps.length ∧
      (Validate D c).1.Apps.map Prod.fst = lowerKeys c.Apps ∧
      ((Validate D c).1.Apps.map Prod.fst).Nodup ∧
      ∀ p ∈ c.Apps, ∃ a a', p.2 = some a ∧ D.appValidate (D.appClone a) = .ok a' ∧
        (Validate D c).1.Apps.lookup (ToLower p.1) = some (some a')) ∧
    ((Validate D c).1.Services.length = c.Services.length ∧
      (Validate D c).1.Services.map Prod.fst = lowerKeys c.Services ∧
      ((Validate D c).1.Services.map Prod.fst).Nodup ∧
      ∀ p ∈ c.Services, ∃ a a', p.2 = some a ∧
        D.serviceValidate (D.serviceClone a) = .ok a' ∧
        (Validate D c).1.Services.lookup (ToLower p.1) = some (some a')) := by
  have hnd := Validate_ok_nodup D c h
  have hall : (∀ p ∈ c.Apps, appEntryOK D p) ∧ (∀ p ∈ c.Services, serviceEntryOK D p) := by
    rcases Validate_cases D c with ⟨_, _, hv⟩ | ⟨_, ⟨e, _, hv⟩ |
      ⟨apps, http, udp, ha, ⟨_, _, hv⟩ | ⟨_, _, _, hv⟩ | ⟨_, _, ⟨e, _, hv⟩ | ⟨sv, hs, hv⟩⟩⟩⟩
    · rw [hv] at h; exact Option.noConfusion h
    · rw [hv] at h; exact Option.noConfusion h
    · rw [hv] at h; exact Option.noConfusion h
    · rw [hv] at h; exact Option.noConfusion h
    · rw [hv] at h; exact Option.noConfusion h
    · exact ⟨((appsLoop_ok_iff D c.Apps _).mp ha).1,
        ((servicesLoop_ok_iff D c.Services _).mp hs).1⟩
  rw [Validate_ok_result D c h]
  simp only [clampTunables_Apps, clampTunables_Services]
  refine ⟨⟨by simp [rekeyed], rekeyed_keys _ _, (rekeyed_keys (appCheck D) c.Apps) ▸ hnd.1,
      fun p hp => ?_⟩,
    ⟨by simp [rekeyed], rekeyed_keys _ _, (rekeyed_keys (serviceCheck D) c.Services) ▸ hnd.2,
      fun p hp => ?_⟩⟩
  · obtain ⟨_, _, a, h1, a', h2⟩ := hall.1 p hp
    refine ⟨a, a', h1, h2, lookup_of_mem_nodup _ _ _ ?_ ((rekeyed_keys _ _) ▸ hnd.1)⟩
    have hc : checked (appCheck D) p = some a' :=
      (checked_eq_some _ _ _).mpr ((appCheck_ok_iff D p.1 p.2 a').mpr
        ⟨(hall.1 p hp).1, (hall.1 p hp).2.1, a, h1, h2⟩)
    rw [← hc]
    exact List.mem_map.mpr ⟨p, hp, rfl⟩
  · obtain ⟨_, _, a, h1, a', h2⟩ := hall.2 p hp
    refine ⟨a, a', h1, h2, lookup_of_mem_nodup _ _ _ ?_ ((rekeyed_keys _ _) ▸ hnd.2)⟩
    have hc : checked (serviceCheck D) p = some a' :=
      (checked_eq_some _ _ _).mpr ((serviceCheck_ok_iff D p.1 p.2 a').mpr
        ⟨(hall.2 p hp).1, (hall.2 p hp).2.1, a, h1, h2⟩)
    rw [← hc]
    exact List.mem_map.mpr ⟨p, hp, rfl⟩

/-- Witness of C18 on `fleetConfig`: three apps and two services come out
rekeyed, none lost. -/
theorem Validate_ok_image_witness :
    (Validate sampleDeps fleetConfig).2 = none ∧
      (Validate sampleDeps fleetConfig).1.Apps.length = 3 ∧
      (Validate sampleDeps fleetConfig).1.Apps.map Prod.fst = ["web", "dns", "job"] ∧
      (Validate sampleDeps fleetConfig).1.Services.map Prod.fst = ["db", "mq"] :=
  ⟨by decide,
    (Validate_ok_image sampleDeps fleetConfig (by decide)).1.1.trans (by decide),
    (Validate_ok_image sampleDeps fleetConfig (by decide)).1.2.1.trans (by decide),
    (Validate_ok_image sampleDeps fleetConfig (by decide)).2.2.1.trans (by decide)⟩
/-- `Validate` returns no error exactly when the emptiness check, both loops
and both listener checks pass; the listener checks are stated on the flags the
apps loop ends with. -/
theorem Validate_ok_iff_flags (D : Deps) (c : Config) :
    (Validate D c).2 = none ↔
      ¬ (c.Apps = [] ∧ c.Services = []) ∧
      (∀ p ∈ c.Apps, appEntryOK D p) ∧ (lowerKeys c.Apps).Nodup ∧
      ¬ ((flagsAfter (appCheck D) (appFlags D) c.Apps (false, false)).1 = true ∧
          c.ListenHTTP = []) ∧
      ¬ ((flagsAfter (appCheck D) (appFlags D) c.Apps (false, false)).2 = true ∧
          c.ListenUDP = []) ∧
      (∀ p ∈ c.Services, serviceEntryOK D p) ∧ (lowerKeys c.Services).Nodup := by
  rcases Validate_cases D c with ⟨h1, h2, hv⟩ | ⟨h0, ⟨e, ha, hv⟩ |
    ⟨apps, http, udp, ha, ⟨hh, hl, hv⟩ | ⟨hh, hu, hl, hv⟩ | ⟨hh, hu, ⟨e, hs, hv⟩ | ⟨sv, hs, hv⟩⟩⟩⟩
  · rw [hv]
    exact ⟨fun h => Option.noConfusion h, fun h => absurd ⟨h1, h2⟩ h.1⟩
  · rw [hv]
    refine ⟨fun h => Option.noConfusion h, fun h => ?_⟩
    have := (appsLoop_ok_iff D c.Apps _).mpr ⟨h.2.1, h.2.2.1, rfl⟩
    rw [ha] at this
    exact Except.noConfusion this
  · rw [hv]
    refine ⟨fun h => Option.noConfusion h, fun h => ?_⟩
    obtain ⟨_, _, hr⟩ := (appsLoop_ok_iff D c.Apps _).mp ha
    have hf : http = (flagsAfter (appCheck D) (appFlags D) c.Apps (false, false)).1 :=
      congrArg (fun r => r.2.1) hr
    exact absurd ⟨hf ▸ hh, hl⟩ h.2.2.2.1
  · rw [hv]
    refine ⟨fun h => Option.noConfusion h, fun h => ?_⟩
    obtain ⟨_, _, hr⟩ := (appsLoop_ok_iff D c.Apps _).mp ha
    have hf : udp = (flagsAfter (appCheck D) (appFlags D) c.Apps (false, false)).2 :=
      congrArg (fun r => r.2.2) hr
    exact absurd ⟨hf ▸ hu, hl⟩ h.2.2.2.2.1
  · rw [hv]
    refine ⟨fun h => Option.noConfusion h, fun h => ?_⟩
    have := (servicesLoop_ok_iff D c.Services _).mpr ⟨h.2.2.2.2.2.1, h.2.2.2.2.2.2, rfl⟩
    rw [hs] at this
    exact Except.noConfusion this
  · rw [hv]
    obtain ⟨hall, hnd, hr⟩ := (appsLoop_ok_iff D c.Apps _).mp ha
    obtain ⟨hsall, hsnd, _⟩ := (servicesLoop_ok_iff D c.Services _).mp hs
    have h1 : http = (flagsAfter (appCheck D) (appFlags D) c.Apps (false, false)).1 :=
      congrArg (fun r => r.2.1) hr
    have h2 : udp = (flagsAfter (appCheck D) (appFlags D) c.Apps (false, false)).2 :=
      congrArg (fun r => r.2.2) hr
    exact ⟨fun _ => ⟨h0, hall, hnd, h1 ▸ hh, h2 ▸ hu, hsall, hsnd⟩, fun _ => rfl⟩

theorem lowerKeys_perm {α : Type} (l l' : List (String × α)) (h : l.Perm l') :
    (lowerKeys l).Perm (lowerKeys l') :=
  h.map _

theorem flagsAfter_perm (D : Deps) (l l' : List (String × Option ConfigApp))
    (h : l.Perm l') :
    flagsAfter (appCheck D) (appFlags D) l (false, false)
      = flagsAfter (appCheck D) (appFlags D) l' (false, false) := by
  apply Prod.ext
  · rw [Bool.eq_iff_iff, flagsAfter_http, flagsAfter_http]
    simp only [h.mem_iff]
  · rw [Bool.eq_iff_iff, flagsAfter_udp, flagsAfter_udp]
    simp only [h.mem_iff]

/-- C20. The outcome of `Config.Validate` that matters does not depend on the
order in which the entries of the two maps are visited: for any two orders,
`Validate` succeeds under both or fails under both, and when it succeeds the
resulting apps map and services map hold the same entries and the other
fields are equal. -/
theorem Validate_order_independent (D : Deps) (c : Config)
    (apps : List (String × Option ConfigApp)) (services : List (String × Option ConfigService))
    (ha : c.Apps.Perm apps) (hs : c.Services.Perm services) :
    ((Validate D c).2 = none ↔
        (Validate D { c with Apps := apps, Services := services }).2 = none) ∧
      ((Validate D c).2 = none →
        (Validate D c).1.Apps.Perm
            (Validate D { c with Apps := apps, Services := services }).1.Apps ∧
          (Validate D c).1.Services.Perm
            (Validate D { c with Apps := apps, Services := services }).1.Services ∧
          (Validate D { c with Apps := apps, Services := services }).1.TickEvery
            = (Validate D c).1.TickEvery ∧
          (Validate D { c with Apps := apps, Services := services }).1.History
            = (Validate D c).1.History ∧
          (Validate D { c with Apps := apps, Services := services }).1.PingTimeout
            = (Validate D c).1.PingTimeout ∧
          (Validate D { c with Apps := apps, Services := services }).1.Timestamp
            = (Validate D c).1.Timestamp ∧
          (Validate D { c with Apps := apps, Services := services }).1.ListenHTTP
            = (Validate D c).1.ListenHTTP ∧
          (Validate D { c with Apps := apps, Services := services }).1.ListenUDP
            = (Validate D c).1.ListenUDP) := by
  have hiff : (Validate D c).2 = none ↔
      (Validate D { c with Apps := apps, Services := services }).2 = none := by
    rw [Validate_ok_iff_flags, Validate_ok_iff_flags]
    simp only [← flagsAfter_perm D c.Apps apps ha, (lowerKeys_perm _ _ ha).nodup_iff,
      (lowerKeys_perm _ _ hs).nodup_iff, ha.mem_iff, hs.mem_iff,
      ← List.length_eq_zero, ha.length_eq, hs.length_eq]
  refine ⟨hiff, fun h => ?_⟩
  rw [Validate_ok_result D c h, Validate_ok_result D _ (hiff.mp h)]
  exact ⟨ha.map _, hs.map _, rfl, rfl, rfl, rfl, rfl, rfl⟩

/-- Witness of C20 on `fleetConfig` with both maps reversed, and on
`twoFaultsConfig`, where the two orders fail with different errors. -/
theorem Validate_order_independent_witness :
    (Validate sampleDeps fleetConfig).2 = none ∧
      (Validate sampleDeps { fleetConfig with Apps := fleetConfig.Apps.reverse,
                                              Services := fleetConfig.Services.reverse }).2
        = none ∧
      (Validate sampleDeps twoFaultsConfig).2 = some .ERR_APPS_KEY_EMPTY ∧
      (Validate sampleDeps { twoFaultsConfig with Apps := twoFaultsConfig.Apps.reverse }).2
        = some .ERR_APPS_KEY_INVALID :=
  ⟨by decide,
    (Validate_order_independent sampleDeps fleetConfig fleetConfig.Apps.reverse
      fleetConfig.Services.reverse (List.reverse_perm _).symm (List.reverse_perm _).symm).1.mp
      (by decide),
    by decide, by decide⟩

theorem mapSet_of_not_hasKey {α : Type} (m : List (String × α)) (k : String) (v : α)
    (h : hasKey m k = false) : mapSet m k v = m ++ [(k, v)] := by
  simp [mapSet, h]

theorem lockPairs_append (xs ys : List Lock) :
    lockPairs (xs ++ ys) = lockPairs xs ++ lockPairs ys := by
  induction xs with
  | nil => rfl
  | cons x xs ih => simp [lockPairs, ih]

theorem statusAppsLoop_ops (S : StatusDeps) (l : List (String × App)) (result : API_Status)
    (ops : List LockOp) :
    (statusAppsLoop S l result ops).2 = ops ++ lockPairs (l.map (fun p => Lock.app p.1)) := by
  induction l generalizing result ops with
  | nil => simp [statusAppsLoop, lockPairs]
  | cons p l ih =>
    obtain ⟨id, app⟩ := p
    simp [statusAppsLoop, ih, lockPairs]

theorem statusServicesLoop_ops (S : StatusDeps) (l : List (String × Service))
    (result : API_Status) (ops : List LockOp) :
    (statusServicesLoop S l result ops).2
      = ops ++ lockPairs (l.map (fun p => Lock.service p.1)) := by
  induction l generalizing result ops with
  | nil => simp [statusServicesLoop, lockPairs]
  | cons p l ih =>
    obtain ⟨id, sv⟩ := p
    simp [statusServicesLoop, ih, lockPairs]

/-- The apps loop of `GetStatus` writes `Apps` only; when the keys still to
visit are pairwise distinct and not yet in `Apps`, it adds one entry for each
of them. -/
theorem statusAppsLoop_result (S : StatusDeps) (l : List (String × App))
    (result : API_Status) (ops : List LockOp) :
    (statusAppsLoop S l result ops).1.InstanceID = result.InstanceID ∧
      (statusAppsLoop S l result ops).1.Services = result.Services ∧
      (statusAppsLoop S l result ops).1.Started = result.Started ∧
      (statusAppsLoop S l result ops).1.Shutdown = result.Shutdown ∧
      ((l.map Prod.fst).Nodup → (∀ p ∈ l, hasKey result.Apps p.1 = false) →
        (statusAppsLoop S l result ops).1.Apps
          = result.Apps ++ l.map (fun p => (p.1, S.appResponse p.2 S.api_endpoint_status))) := by
  induction l generalizing result ops with
  | nil => simp [statusAppsLoop]
  | cons p l ih =>
    obtain ⟨id, app⟩ := p
    simp only [statusAppsLoop]
    obtain ⟨h1, h2, h3, h4, h5⟩ := ih
      { result with Apps := mapSet result.Apps id (S.appResponse app S.api_endpoint_status) }
      (ops ++ [.RLock (.app id)] ++ [.RUnlock (.app id)])
    refine ⟨h1, h2, h3, h4, fun hnd hk => ?_⟩
    simp only [List.map_cons, List.nodup_cons, List.mem_map, not_exists, not_and] at hnd
    have hk0 : hasKey result.Apps id = false := hk (id, app) (List.mem_cons_self _ _)
    rw [h5 hnd.2]
    · simp [mapSet_of_not_hasKey _ _ _ hk0]
    · intro q hq
      simp only [mapSet_of_not_hasKey _ _ _ hk0, hasKey_append, hk _ (List.mem_cons_of_mem _ hq),
        Bool.false_or]
      have : id ≠ q.1 := fun he => hnd.1 q hq he.symm
      simp [hasKey, this]

theorem statusServicesLoop_result (S : StatusDeps) (l : List (String × Service))
    (result : API_Status) (ops : List LockOp) :
    (statusServicesLoop S l result ops).1.InstanceID = result.InstanceID ∧
      (statusServicesLoop S l result ops).1.Apps = result.Apps ∧
      (statusServicesLoop S l result ops).1.Started = result.Started ∧
      (statusServicesLoop S l result ops).1.Shutdown = result.Shutdown ∧
      ((l.map Prod.fst).Nodup → (∀ p ∈ l, hasKey result.Services p.1 = false) →
        (statusServicesLoop S l result ops).1.Services
          = result.Services
              ++ l.map (fun p => (p.1, S.serviceResponse p.2 S.api_endpoint_status))) := by
  induction l generalizing result ops with
  | nil => simp [statusServicesLoop]
  | cons p l ih =>
    obtain ⟨id, sv⟩ := p
    simp only [statusServicesLoop]
    obtain ⟨h1, h2, h3, h4, h5⟩ := ih
      { result with
        Services := mapSet result.Services id (S.serviceResponse sv S.api_endpoint_status) }
      (ops ++ [.RLock (.service id)] ++ [.RUnlock (.service id)])
    refine ⟨h1, h2, h3, h4, fun hnd hk => ?_⟩
    simp only [List.map_cons, List.nodup_cons, List.mem_map, not_exists, not_and] at hnd
    have hk0 : hasKey result.Services id = false := hk (id, sv) (List.mem_cons_self _ _)
    rw [h5 hnd.2]
    · simp [mapSet_of_not_hasKey _ _ _ hk0]
    · intro q hq
      simp only [mapSet_of_not_hasKey _ _ _ hk0, hasKey_append, hk _ (List.mem_cons_of_mem _ hq),
        Bool.false_or]
      have : id ≠ q.1 := fun he => hnd.1 q hq he.symm
      simp [hasKey, this]

theorem GetStatus_eq (S : StatusDeps) (self : Patrol) :
    GetStatus S self
      = statusServicesLoop S self.services
          (statusAppsLoop S self.apps (initialStatus self) [.RLock .mu, .RUnlock .mu]).1
          (statusAppsLoop S self.apps (initialStatus self) [.RLock .mu, .RUnlock .mu]).2 := by
  unfold GetStatus initialStatus
  simp only [List.singleton_append]
  split_ifs <;> rfl

/-- C12. For every `Patrol` state (a Go map has pairwise distinct keys), the
status `GetStatus` returns has an `Apps` map with exactly the identifiers of
the live apps and a `Services` map with exactly the identifiers of the live
services, each identifier mapped to that entity's `apiResponse` for the status
endpoint, and its `InstanceID` is the patrol's instance id. No entity is
filtered out or added; without entities both maps are empty. -/
theorem GetStatus_entities (S : StatusDeps) (self : Patrol)
    (ha : (self.apps.map Prod.fst).Nodup) (hs : (self.services.map Prod.fst).Nodup) :
    (GetStatus S self).1.Apps
        = self.apps.map (fun p => (p.1, S.appResponse p.2 S.api_endpoint_status)) ∧
      (GetStatus S self).1.Services
        = self.services.map (fun p => (p.1, S.serviceResponse p.2 S.api_endpoint_status)) ∧
      (GetStatus S self).1.InstanceID = self.instance_id ∧
      (self.apps = [] → (GetStatus S self).1.Apps = []) ∧
      (self.services = [] → (GetStatus S self).1.Services = []) := by
  rw [GetStatus_eq]
  obtain ⟨a1, a2, a3, a4, a5⟩ := statusAppsLoop_result S self.apps (initialStatus self)
    [.RLock .mu, .RUnlock .mu]
  obtain ⟨s1, s2, s3, s4, s5⟩ := statusServicesLoop_result S self.services
    (statusAppsLoop S self.apps (initialStatus self) [.RLock .mu, .RUnlock .mu]).1
    (statusAppsLoop S self.apps (initialStatus self) [.RLock .mu, .RUnlock .mu]).2
  have hA : (statusAppsLoop S self.apps (initialStatus self) [.RLock .mu, .RUnlock .mu]).1.Apps
      = self.apps.map (fun p => (p.1, S.appResponse p.2 S.api_endpoint_status)) := by
    rw [a5 ha (fun p _ => by simp [initialStatus, hasKey])]
    simp [initialStatus]
  have hS : (statusServicesLoop S self.services
      (statusAppsLoop S self.apps (initialStatus self) [.RLock .mu, .RUnlock .mu]).1
      (statusAppsLoop S self.apps (initialStatus self) [.RLock .mu, .RUnlock .mu]).2).1.Services
      = self.services.map (fun p => (p.1, S.serviceResponse p.2 S.api_endpoint_status)) := by
    rw [s5 hs (fun p _ => by rw [a2]; simp [initialStatus, hasKey]), a2]
    simp [initialStatus]
  refine ⟨s2.trans hA, hS, s1.trans a1, fun h => ?_, fun h => ?_⟩
  · rw [s2, hA, h]
    rfl
  · rw [hS, h]
    rfl

/-- Witness of C12 on `samplePatrol` (an app and a service may share an
identifier) and on `idlePatrol`. -/
theorem GetStatus_entities_witness :
    (GetStatus sampleStatusDeps samplePatrol).1.Apps
        = [("web", some ⟨"running@2"⟩), ("dns", some ⟨"stopped@2"⟩)] ∧
      (GetStatus sampleStatusDeps samplePatrol).1.Services = [("web", some ⟨"running@2"⟩)] ∧
      (GetStatus sampleStatusDeps idlePatrol).1.Apps = [] :=
  ⟨(GetStatus_entities sampleStatusDeps samplePatrol (by decide) (by decide)).1.trans
      (by decide),
    (GetStatus_entities sampleStatusDeps samplePatrol (by decide) (by decide)).2.1.trans
      (by decide),
    (GetStatus_entities sampleStatusDeps idlePatrol (by decide) (by decide)).2.2.2.1 rfl⟩

/-- C13. For every `Patrol` state, the status `GetStatus` returns has
`Shutdown` equal to the patrol's shutdown flag, and has `Started` absent (nil)
if and only if the patrol's `ticker_running` time is the zero time; when
present, `Started` carries that time together with the config's timestamp
format. -/
theorem GetStatus_started_shutdown (S : StatusDeps) (self : Patrol) :
    (GetStatus S self).1.Shutdown = self.shutdown ∧
      ((GetStatus S self).1.Started = none ↔ self.ticker_running.IsZero = true) ∧
      (self.ticker_running.IsZero = false →
        (GetStatus S self).1.Started
          = some { Time := self.ticker_running, TimestampFormat := self.config.Timestamp }) := by
  rw [GetStatus_eq]
  obtain ⟨_, _, a3, a4, _⟩ := statusAppsLoop_result S self.apps (initialStatus self)
    [.RLock .mu, .RUnlock .mu]
  obtain ⟨_, _, s3, s4, _⟩ := statusServicesLoop_result S self.services
    (statusAppsLoop S self.apps (initialStatus self) [.RLock .mu, .RUnlock .mu]).1
    (statusAppsLoop S self.apps (initialStatus self) [.RLock .mu, .RUnlock .mu]).2
  rw [s3, s4, a3, a4]
  refine ⟨rfl, ?_, fun h => ?_⟩
  · cases h : self.ticker_running.IsZero <;> simp [initialStatus, h]
  · simp [initialStatus, h]

/-- Witness of C13 on `samplePatrol`, whose ticker has run, and on
`idlePatrol`, whose ticker has not. -/
theorem GetStatus_started_shutdown_witness :
    (GetStatus sampleStatusDeps samplePatrol).1.Started
        = some ⟨⟨63800000000, 5⟩, "Mon, 02 Jan 2006 15:04:05 -0700"⟩ ∧
      (GetStatus sampleStatusDeps samplePatrol).1.Shutdown = true ∧
      (GetStatus sampleStatusDeps idlePatrol).1.Started = none :=
  ⟨((GetStatus_started_shutdown sampleStatusDeps samplePatrol).2.2 (by decide)).trans
      (by decide),
    (GetStatus_started_shutdown sampleStatusDeps samplePatrol).1.trans (by decide),
    ((GetStatus_started_shutdown sampleStatusDeps idlePatrol).2.1).mpr (by decide)⟩
theorem GetStatus_ops (S : StatusDeps) (self : Patrol) :
    (GetStatus S self).2
      = lockPairs (Lock.mu :: (self.apps.map (fun p => Lock.app p.1)
          ++ self.services.map (fun p => Lock.service p.1))) := by
  rw [GetStatus_eq, statusServicesLoop_ops, statusAppsLoop_ops, lockPairs, lockPairs_append]
  simp

theorem heldFrom_pair (l : Lock) (ops : List LockOp) :
    heldFrom [] (.RLock l :: .RUnlock l :: ops) = heldFrom [] ops := by
  simp [heldFrom, lockStep]

theorem lockPairs_held (locks : List Lock) : heldFrom [] (lockPairs locks) = [] := by
  induction locks with
  | nil => rfl
  | cons l locks ih => rw [lockPairs, heldFrom_pair, ih]

theorem lockPairs_take_held (locks : List Lock) (n : Nat) :
    (heldFrom [] ((lockPairs locks).take n)).length ≤ 1 := by
  induction locks generalizing n with
  | nil => simp [lockPairs, heldFrom]
  | cons l locks ih =>
    match n with
    | 0 => simp [heldFrom]
    | 1 => simp [lockPairs, heldFrom, lockStep]
    | n + 2 =>
      simp only [lockPairs, List.take_succ_cons]
      rw [heldFrom_pair]
      exact ih n

theorem lockPairs_acquire_free (locks : List Lock) (n : Nat) (l : Lock)
    (h : (lockPairs locks)[n]? = some (.RLock l)) :
    heldFrom [] ((lockPairs locks).take n) = [] := by
  induction locks generalizing n with
  | nil => simp [lockPairs, heldFrom]
  | cons l' locks ih =>
    match n with
    | 0 => simp [heldFrom]
    | 1 => simp [lockPairs] at h
    | n + 2 =>
      simp only [lockPairs, List.getElem?_cons_succ] at h
      simp only [lockPairs, List.take_succ_cons]
      rw [heldFrom_pair]
      exact ih n h

theorem lockPairs_release_held (locks : List Lock) (n : Nat) (l : Lock)
    (h : (lockPairs locks)[n]? = some (.RUnlock l)) :
    heldFrom [] ((lockPairs locks).take n) = [l] := by
  induction locks generalizing n with
  | nil => simp [lockPairs] at h
  | cons l' locks ih =>
    match n with
    | 0 => simp [lockPairs] at h
    | 1 =>
      simp only [lockPairs, List.getElem?_cons_succ, List.getElem?_cons_zero, Option.some.injEq,
        LockOp.RUnlock.injEq] at h
      simp [lockPairs, heldFrom, lockStep, h]
    | n + 2 =>
      simp only [lockPairs, List.getElem?_cons_succ] at h
      simp only [lockPairs, List.take_succ_cons]
      rw [heldFrom_pair]
      exact ih n h

theorem mem_lockPairs (locks : List Lock) (op : LockOp) :
    op ∈ lockPairs locks ↔ ∃ l ∈ locks, op = .RLock l ∨ op = .RUnlock l := by
  induction locks with
  | nil => simp [lockPairs]
  | cons l locks ih =>
    simp only [lockPairs, List.mem_cons, ih, exists_eq_or_imp]
    constructor
    · rintro (h | h | h)
      · exact Or.inl (Or.inl h)
      · exact Or.inl (Or.inr h)
      · exact Or.inr h
    · rintro ((h | h) | h)
      · exact Or.inl h
      · exact Or.inr (Or.inl h)
      · exact Or.inr (Or.inr h)

/-- C19. In the sequence of lock operations of one call of `GetStatus`, at
most one lock is held at any point. The first two operations acquire and
release the supervisor lock `mu`, which no later operation touches; every
acquisition finds no lock held, so `mu` is released before any entity lock is
acquired, an entity lock is released before the next one is acquired, and
`mu` is never acquired while an entity lock is held; every release is of the
one lock then held; and no lock is held when `GetStatus` returns. -/
theorem GetStatus_locks (S : StatusDeps) (self : Patrol) :
    (∀ n, (heldAfter ((GetStatus S self).2.take n)).length ≤ 1) ∧
      (∃ rest, (GetStatus S self).2 = .RLock .mu :: .RUnlock .mu :: rest ∧
        ∀ op ∈ rest, op ≠ .RLock .mu ∧ op ≠ .RUnlock .mu) ∧
      (∀ n l, (GetStatus S self).2[n]? = some (.RLock l) →
        heldAfter ((GetStatus S self).2.take n) = []) ∧
      (∀ n l, (GetStatus S self).2[n]? = some (.RUnlock l) →
        heldAfter ((GetStatus S self).2.take n) = [l]) ∧
      heldAfter (GetStatus S self).2 = [] := by
  rw [GetStatus_ops]
  refine ⟨fun n => lockPairs_take_held _ n, ⟨_, rfl, ?_⟩,
    fun n l h => lockPairs_acquire_free _ n l h,
    fun n l h => lockPairs_release_held _ n l h, lockPairs_held _⟩
  intro op hop
  obtain ⟨l, hl, hop⟩ := (mem_lockPairs _ _).mp hop
  have hne : l ≠ Lock.mu := by
    rcases List.mem_append.mp hl with h | h
    · obtain ⟨p, _, rfl⟩ := List.mem_map.mp h
      exact Lock.noConfusion
    · obtain ⟨p, _, rfl⟩ := List.mem_map.mp h
      exact Lock.noConfusion
  rcases hop with rfl | rfl
  · exact ⟨fun h => hne (LockOp.RLock.inj h), LockOp.noConfusion⟩
  · exact ⟨LockOp.noConfusion, fun h => hne (LockOp.RUnlock.inj h)⟩

/-- Witness of C19 on `samplePatrol`: the eight lock operations of the call;
the app `web` is locked at position 2 with no lock held, and unlocked at
position 3 as the one lock held. -/
theorem GetStatus_locks_witness :
    (GetStatus sampleStatusDeps samplePatrol).2
        = [.RLock .mu, .RUnlock .mu, .RLock (.app "web"), .RUnlock (.app "web"),
            .RLock (.app "dns"), .RUnlock (.app "dns"), .RLock (.service "web"),
            .RUnlock (.service "web")] ∧
      heldAfter ((GetStatus sampleStatusDeps samplePatrol).2.take 2) = [] ∧
      heldAfter ((GetStatus sampleStatusDeps samplePatrol).2.take 3) = [.app "web"] :=
  ⟨by decide,
    (GetStatus_locks sampleStatusDeps samplePatrol).2.2.1 2 (.app "web") (by decide),
    (GetStatus_locks sampleStatusDeps samplePatrol).2.2.2.1 3 (.app "web") (by decide)⟩

theorem sameBelow_refl (nA nS nR : Nat) (h : Heap) : sameBelow nA nS nR h h :=
  ⟨fun _ _ => rfl, fun _ _ => rfl, fun _ _ => rfl⟩

theorem sameBelow_trans (nA nS nR : Nat) (h h' h'' : Heap) (h1 : sameBelow nA nS nR h h')
    (h2 : sameBelow nA nS nR h' h'') : sameBelow nA nS nR h h'' :=
  ⟨fun a ha => (h2.1 a ha).trans (h1.1 a ha), fun a ha => (h2.2.1 a ha).trans (h1.2.1 a ha),
    fun a ha => (h2.2.2 a ha).trans (h1.2.2 a ha)⟩

theorem sliceGet_congr (h h' : Heap) (s : Slice)
    (hc : ∀ a, s.array = some a → h'.cells a = h.cells a) (i : Nat) :
    sliceGet h' s i = sliceGet h s i := by
  unfold sliceGet
  cases hs : s.array with
  | none => rfl
  | some a => simp only [hc a hs]

theorem readSlice_congr (h h' : Heap) (s : Slice)
    (hc : ∀ a, s.array = some a → h'.cells a = h.cells a) :
    readSlice h' s = readSlice h s := by
  unfold readSlice
  exact List.map_congr_left (fun i _ => sliceGet_congr h h' s hc i)

/-- A config whose references point below the frontiers reads the same in two
heaps that agree below the frontiers. -/
theorem view_sameBelow (nA nS nR : Nat) (h h' : Heap) (c : ConfigObject)
    (hr : refsBelow nA nS nR c) (hs : sameBelow nA nS nR h h') : view h' c = view h c := by
  obtain ⟨r1, r2, r3, r4⟩ := hr
  obtain ⟨s1, s2, s3⟩ := hs
  have e1 : readApps h' c.Apps = readApps h c.Apps := by
    unfold readApps
    cases hc : c.Apps with
    | none => rfl
    | some a => exact s1 a (r1 a hc)
  have e2 : readServices h' c.Services = readServices h c.Services := by
    unfold readServices
    cases hc : c.Services with
    | none => rfl
    | some a => exact s2 a (r2 a hc)
  have e3 := readSlice_congr h h' c.ListenHTTP (fun a ha => s3 a (r3 a ha))
  have e4 := readSlice_congr h h' c.ListenUDP (fun a ha => s3 a (r4 a ha))
  simp only [view, e1, e2, e3, e4]

theorem setApp_sameBelow (nA nS nR : Nat) (h : Heap) (m : Option Nat) (k : String)
    (v : Option ConfigApp) (hm : ∀ a, m = some a → nA ≤ a) :
    sameBelow nA nS nR h (setApp h m k v) := by
  cases m with
  | none => exact sameBelow_refl _ _ _ _
  | some a =>
    refine ⟨fun b hb => ?_, fun _ _ => rfl, fun _ _ => rfl⟩
    have : b ≠ a := fun he => absurd (hm a rfl) (by omega)
    simp [setApp, Function.update_noteq this]

theorem setService_sameBelow (nA nS nR : Nat) (h : Heap) (m : Option Nat) (k : String)
    (v : Option ConfigService) (hm : ∀ a, m = some a → nS ≤ a) :
    sameBelow nA nS nR h (setService h m k v) := by
  cases m with
  | none => exact sameBelow_refl _ _ _ _
  | some a =>
    refine ⟨fun _ _ => rfl, fun b hb => ?_, fun _ _ => rfl⟩
    have : b ≠ a := fun he => absurd (hm a rfl) (by omega)
    simp [setService, Function.update_noteq this]

theorem sliceSet_sameBelow (nA nS nR : Nat) (h : Heap) (s : Slice) (i : Nat) (v : String)
    (hs : ∀ a, s.array = some a → nR ≤ a) : sameBelow nA nS nR h (sliceSet h s i v) := by
  unfold sliceSet
  cases hsa : s.array with
  | none => exact sameBelow_refl _ _ _ _
  | some a =>
    cases hd : decide (i < s.len) with
    | false => exact sameBelow_refl _ _ _ _
    | true =>
      refine ⟨fun _ _ => rfl, fun _ _ => rfl, fun b hb => ?_⟩
      have : b ≠ a := fun he => absurd (hs a hsa) (by omega)
      simp [writeCell, Function.update_noteq this]

/-- A change of an entry through a config whose references point at or above
the frontiers leaves the heap below the frontiers as it is. -/
theorem applyWrite_sameBelow (nA nS nR : Nat) (c : ConfigObject) (h : Heap) (w : EntryWrite)
    (hc : refsFrom nA nS nR c) : sameBelow nA nS nR h (applyWrite c h w) := by
  obtain ⟨r1, r2, r3, r4⟩ := hc
  cases w with
  | setApp k v => exact setApp_sameBelow _ _ _ _ _ _ _ r1
  | deleteApp k =>
    simp only [applyWrite]
    cases hca : c.Apps with
    | none => exact sameBelow_refl _ _ _ _
    | some a =>
      refine ⟨fun b hb => ?_, fun _ _ => rfl, fun _ _ => rfl⟩
      have : b ≠ a := fun he => absurd (r1 a hca) (by omega)
      simp [Function.update_noteq this]
  | setService k v => exact setService_sameBelow _ _ _ _ _ _ _ r2
  | deleteService k =>
    simp only [applyWrite]
    cases hca : c.Services with
    | none => exact sameBelow_refl _ _ _ _
    | some a =>
      refine ⟨fun _ _ => rfl, fun b hb => ?_, fun _ _ => rfl⟩
      have : b ≠ a := fun he => absurd (r2 a hca) (by omega)
      simp [Function.update_noteq this]
  | setListenHTTP i v => exact sliceSet_sameBelow _ _ _ _ _ _ _ r3
  | setListenUDP i v => exact sliceSet_sameBelow _ _ _ _ _ _ _ r4

theorem applyWrites_sameBelow (nA nS nR : Nat) (c : ConfigObject) (ws : List EntryWrite)
    (h : Heap) (hc : refsFrom nA nS nR c) :
    sameBelow nA nS nR h (ws.foldl (applyWrite c) h) := by
  induction ws generalizing h with
  | nil => exact sameBelow_refl _ _ _ _
  | cons w ws ih =>
    exact sameBelow_trans _ _ _ _ _ _ (applyWrite_sameBelow nA nS nR c h w hc) (ih _)
theorem foldl_mapSet_nodup {α β : Type} (g : β → α) (l : List (String × β))
    (m : List (String × α)) (hnd : (l.map Prod.fst).Nodup)
    (hk : ∀ p ∈ l, hasKey m p.1 = false) :
    l.foldl (fun m p => mapSet m p.1 (g p.2)) m = m ++ l.map (fun p => (p.1, g p.2)) := by
  induction l generalizing m with
  | nil => simp
  | cons p l ih =>
    simp only [List.map_cons, List.nodup_cons, List.mem_map, not_exists, not_and] at hnd
    have hk0 : hasKey m p.1 = false := hk p (List.mem_cons_self _ _)
    rw [List.foldl_cons, mapSet_of_not_hasKey _ _ _ hk0, ih _ hnd.2]
    · simp
    · intro q hq
      rw [hasKey_append, hk q (List.mem_cons_of_mem _ hq)]
      have : p.1 ≠ q.1 := fun he => hnd.1 q hq he.symm
      simp [hasKey, this]

theorem cloneApps_spec (C : CloneDeps) (a : Nat) (l : List (String × Option ConfigApp))
    (h : Heap) :
    (cloneApps C (some a) l h).appMaps
        = Function.update h.appMaps a
            (l.foldl (fun m p => mapSet m p.1 (p.2.map C.appClone)) (h.appMaps a)) ∧
      (cloneApps C (some a) l h).serviceMaps = h.serviceMaps ∧
      (cloneApps C (some a) l h).cells = h.cells ∧
      (cloneApps C (some a) l h).nextAppMap = h.nextAppMap ∧
      (cloneApps C (some a) l h).nextServiceMap = h.nextServiceMap ∧
      (cloneApps C (some a) l h).nextArray = h.nextArray := by
  induction l generalizing h with
  | nil => simp [cloneApps]
  | cons p l ih =>
    obtain ⟨k, v⟩ := p
    obtain ⟨h1, h2, h3, h4, h5, h6⟩ := ih (setApp h (some a) k (v.map C.appClone))
    simp only [cloneApps]
    refine ⟨?_, h2, h3, h4, h5, h6⟩
    rw [h1]
    simp [setApp]

theorem cloneServices_spec (C : CloneDeps) (a : Nat)
    (l : List (String × Option ConfigService)) (h : Heap) :
    (cloneServices C (some a) l h).serviceMaps
        = Function.update h.serviceMaps a
            (l.foldl (fun m p => mapSet m p.1 (p.2.map C.serviceClone)) (h.serviceMaps a)) ∧
      (cloneServices C (some a) l h).appMaps = h.appMaps ∧
      (cloneServices C (some a) l h).cells = h.cells ∧
      (cloneServices C (some a) l h).nextAppMap = h.nextAppMap ∧
      (cloneServices C (some a) l h).nextServiceMap = h.nextServiceMap ∧
      (cloneServices C (some a) l h).nextArray = h.nextArray := by
  induction l generalizing h with
  | nil => simp [cloneServices]
  | cons p l ih =>
    obtain ⟨k, v⟩ := p
    obtain ⟨h1, h2, h3, h4, h5, h6⟩ := ih (setService h (some a) k (v.map C.serviceClone))
    simp only [cloneServices]
    refine ⟨?_, h2, h3, h4, h5, h6⟩
    rw [h1]
    simp [setService]

theorem sliceAppend_inplace (h : Heap) (s : Slice) (v : String) (a : Nat)
    (hs : s.array = some a) (hlt : s.len < s.cap) :
    sliceAppend h s v = (writeCell h a (s.off + s.len) v, { s with len := s.len + 1 }) := by
  simp [sliceAppend, hs, hlt]

theorem readSlice_append_inplace (h : Heap) (s : Slice) (v : String) (a : Nat)
    (hs : s.array = some a) :
    readSlice (writeCell h a (s.off + s.len) v) { s with len := s.len + 1 }
      = readSlice h s ++ [v] := by
  simp only [readSlice, List.range_succ, List.map_append, List.map_cons, List.map_nil]
  congr 1
  · apply List.map_congr_left
    intro i hi
    have hi' : i < s.len := List.mem_range.mp hi
    have hne : s.off + i ≠ s.off + s.len := by omega
    simp [sliceGet, hs, writeCell, Function.update_noteq hne]
  · simp [sliceGet, hs, writeCell]

/-- The listener loop appends in place: when the destination has room for the
elements still to copy and the source lies in another array, the loop writes
only to the destination's array and adds the source elements in order. -/
theorem cloneListen_spec (src : Slice) (is : List Nat) (h : Heap) (dst : Slice) (a : Nat)
    (hd : dst.array = some a) (hcap : dst.len + is.length ≤ dst.cap)
    (hsrc : src.array ≠ some a) :
    (cloneListen src is h dst).1.appMaps = h.appMaps ∧
      (cloneListen src is h dst).1.serviceMaps = h.serviceMaps ∧
      (∀ b, b ≠ a → (cloneListen src is h dst).1.cells b = h.cells b) ∧
      (cloneListen src is h dst).2.array = some a ∧
      readSlice (cloneListen src is h dst).1 (cloneListen src is h dst).2
        = readSlice h dst ++ is.map (sliceGet h src) := by
  induction is generalizing h dst with
  | nil => simp [cloneListen, hd]
  | cons i is ih =>
    simp only [List.length_cons] at hcap
    simp only [cloneListen]
    rw [sliceAppend_inplace h dst _ a hd (by omega)]
    simp only
    obtain ⟨h1, h2, h3, h4, h5⟩ := ih (writeCell h a (dst.off + dst.len) (sliceGet h src i))
      { dst with len := dst.len + 1 } hd (by simp only; omega)
    refine ⟨h1, h2, fun b hb => ?_, h4, ?_⟩
    · rw [h3 b hb]
      simp [writeCell, Function.update_noteq hb]
    · rw [h5, readSlice_append_inplace h dst _ a hd]
      have hg : ∀ j, sliceGet (writeCell h a (dst.off + dst.len) (sliceGet h src i)) src j
          = sliceGet h src j := by
        intro j
        apply sliceGet_congr
        intro b hb
        have : b ≠ a := fun he => hsrc (he ▸ hb)
        simp [writeCell, Function.update_noteq this]
      simp [hg]
theorem Clone_some (C : CloneDeps) (h : Heap) (self : ConfigObject) :
    Clone C h (some self) = ((cloneStage4 C h self).1, some (clonedObject C h self)) := rfl

/-- What the heap holds when `Clone` returns, for a receiver whose references
are allocated: below the old frontiers nothing has changed, the two new maps
hold the assignments of the two loops, and the two new slices hold the
listeners of the source. -/
theorem Clone_heap (C : CloneDeps) (h : Heap) (self : ConfigObject) (hal : allocated h self) :
    sameBelow h.nextAppMap h.nextServiceMap h.nextArray h (cloneStage4 C h self).1 ∧
      (cloneStage4 C h self).1.appMaps h.nextAppMap
        = (readApps h self.Apps).foldl (fun m p => mapSet m p.1 (p.2.map C.appClone)) [] ∧
      (cloneStage4 C h self).1.serviceMaps h.nextServiceMap
        = (readServices h self.Services).foldl
            (fun m p => mapSet m p.1 (p.2.map C.serviceClone)) [] ∧
      (cloneStage3 C h self).2.array = some h.nextArray ∧
      (cloneStage4 C h self).2.array = some (h.nextArray + 1) ∧
      readSlice (cloneStage4 C h self).1 (cloneStage3 C h self).2
        = readSlice h self.ListenHTTP ∧
      readSlice (cloneStage4 C h self).1 (cloneStage4 C h self).2
        = readSlice h self.ListenUDP := by
  obtain ⟨r1, r2, r3, r4⟩ := hal
  -- stage 0
  have a0 : (cloneStage0 h self).appMaps = Function.update h.appMaps h.nextAppMap [] := rfl
  have s0 : (cloneStage0 h self).serviceMaps
      = Function.update h.serviceMaps h.nextServiceMap [] := rfl
  have c0 : ∀ b < h.nextArray, (cloneStage0 h self).cells b = h.cells b := by
    intro b hb
    have e : (cloneStage0 h self).cells
        = Function.update (Function.update h.cells h.nextArray (fun _ => ""))
            (h.nextArray + 1) (fun _ => "") := rfl
    rw [e, Function.update_noteq (by omega), Function.update_noteq (by omega)]
  have hA : readApps (cloneStage0 h self) self.Apps = readApps h self.Apps := by
    unfold readApps
    cases hc : self.Apps with
    | none => rfl
    | some a =>
      have := r1 a hc
      simp only [a0]
      rw [Function.update_noteq (by omega)]
  -- stage 1
  obtain ⟨a1, s1, c1, -, -, -⟩ := cloneApps_spec C h.nextAppMap
    (readApps (cloneStage0 h self) self.Apps) (cloneStage0 h self)
  change (cloneStage1 C h self).appMaps = _ at a1
  rw [hA, a0, Function.update_same, Function.update_idem] at a1
  have hS : readServices (cloneStage1 C h self) self.Services = readServices h self.Services := by
    unfold readServices
    cases hc : self.Services with
    | none => rfl
    | some a =>
      have := r2 a hc
      simp only [cloneStage1, s1, s0]
      rw [Function.update_noteq (by omega)]
  -- stage 2
  obtain ⟨s2, a2, c2, -, -, -⟩ := cloneServices_spec C h.nextServiceMap
    (readServices (cloneStage1 C h self) self.Services) (cloneStage1 C h self)
  change (cloneStage2 C h self).serviceMaps = _ at s2
  rw [hS] at s2
  have s1' : (cloneStage1 C h self).serviceMaps
      = Function.update h.serviceMaps h.nextServiceMap [] := s1.trans s0
  rw [s1', Function.update_same, Function.update_idem] at s2
  have c2' : ∀ b < h.nextArray, (cloneStage2 C h self).cells b = h.cells b := by
    intro b hb
    have : (cloneStage2 C h self).cells = (cloneStage0 h self).cells := c2.trans c1
    rw [this]
    exact c0 b hb
  -- stage 3
  obtain ⟨a3, s3, c3, l3, e3⟩ := cloneListen_spec self.ListenHTTP
    (List.range self.ListenHTTP.len) (cloneStage2 C h self)
    { array := some h.nextArray, off := 0, len := 0, cap := self.ListenHTTP.len } h.nextArray
    rfl (by simp) (fun hc => absurd (r3 _ hc) (by omega))
  -- stage 4
  obtain ⟨a4, s4, c4, l4, e4⟩ := cloneListen_spec self.ListenUDP
    (List.range self.ListenUDP.len) (cloneStage3 C h self).1
    { array := some (h.nextArray + 1), off := 0, len := 0, cap := self.ListenUDP.len }
    (h.nextArray + 1) rfl (by simp) (fun hc => absurd (r4 _ hc) (by omega))
  have ha : (cloneStage4 C h self).1.appMaps
      = Function.update h.appMaps h.nextAppMap
          ((readApps h self.Apps).foldl (fun m p => mapSet m p.1 (p.2.map C.appClone)) []) :=
    a4.trans (a3.trans (a2.trans a1))
  have hs : (cloneStage4 C h self).1.serviceMaps
      = Function.update h.serviceMaps h.nextServiceMap
          ((readServices h self.Services).foldl
            (fun m p => mapSet m p.1 (p.2.map C.serviceClone)) []) :=
    s4.trans (s3.trans s2)
  have c3' : ∀ b < h.nextArray, (cloneStage3 C h self).1.cells b = h.cells b := by
    intro b hb
    exact (c3 b (by omega)).trans (c2' b hb)
  have c4' : ∀ b < h.nextArray, (cloneStage4 C h self).1.cells b = h.cells b := by
    intro b hb
    exact (c4 b (by omega)).trans (c3' b hb)
  refine ⟨⟨fun a hlt => ?_, fun a hlt => ?_, c4'⟩, ?_, ?_, l3, l4, ?_, ?_⟩
  · rw [ha, Function.update_noteq (by omega)]
  · rw [hs, Function.update_noteq (by omega)]
  · rw [ha, Function.update_same]
  · rw [hs, Function.update_same]
  · have e : readSlice (cloneStage4 C h self).1 (cloneStage3 C h self).2
        = readSlice (cloneStage3 C h self).1 (cloneStage3 C h self).2 := by
      apply readSlice_congr
      intro a hsa
      have : a = h.nextArray := Option.some.inj (hsa.symm.trans l3)
      exact c4 a (by omega)
    rw [e]
    refine e3.trans ?_
    have e0 : readSlice (cloneStage2 C h self)
        { array := some h.nextArray, off := 0, len := 0, cap := self.ListenHTTP.len } = [] := rfl
    rw [e0, List.nil_append]
    exact readSlice_congr h (cloneStage2 C h self) self.ListenHTTP
      (fun a hsa => c2' a (r3 a hsa))
  · refine e4.trans ?_
    have e0 : readSlice (cloneStage3 C h self).1
        { array := some (h.nextArray + 1), off := 0, len := 0, cap := self.ListenUDP.len }
          = [] := rfl
    rw [e0, List.nil_append]
    exact readSlice_congr h (cloneStage3 C h self).1 self.ListenUDP
      (fun a hsa => c3' a (r4 a hsa))

/-- C14. `Config.Clone` of a nil config is nil. `Clone` of a non-nil config
(whose references are allocated and whose maps have pairwise distinct keys, as
every Go value has) returns a config with the same `TickEvery`, `History`,
`Timestamp` and `PingTimeout`, with `ListenHTTP` and `ListenUDP` holding the
same elements in the same order, and with apps and services maps that have the
keys of the source, each key mapped to the `Clone` of the source's entity.
Whatever entries of the clone's maps and listener sequences are changed
afterwards, the source's maps and sequences read as before the call. -/
theorem Clone_independent (C : CloneDeps) (h : Heap) (self : ConfigObject)
    (hal : allocated h self) (hka : ((readApps h self.Apps).map Prod.fst).Nodup)
    (hks : ((readServices h self.Services).map Prod.fst).Nodup) :
    Clone C h none = (h, none) ∧
      ∃ clone, (Clone C h (some self)).2 = some clone ∧
        view (Clone C h (some self)).1 clone
          = { view h self with
              Apps := clonedEntries C.appClone (view h self).Apps
              Services := clonedEntries C.serviceClone (view h self).Services } ∧
        ∀ ws : List EntryWrite,
          view (ws.foldl (applyWrite clone) (Clone C h (some self)).1) self = view h self := by
  obtain ⟨hsb, hA, hS, l3, l4, e3, e4⟩ := Clone_heap C h self hal
  refine ⟨rfl, clonedObject C h self, rfl, ?_, fun ws => ?_⟩
  · rw [Clone_some]
    rw [foldl_mapSet_nodup _ _ [] hka (fun _ _ => rfl)] at hA
    rw [foldl_mapSet_nodup _ _ [] hks (fun _ _ => rfl)] at hS
    simp only [view, clonedObject, readApps, readServices, hA, hS, e3, e4, clonedEntries,
      List.nil_append]
  · rw [Clone_some]
    have hfrom : refsFrom h.nextAppMap h.nextServiceMap h.nextArray (clonedObject C h self) := by
      refine ⟨fun a ha => ?_, fun a ha => ?_, fun a ha => ?_, fun a ha => ?_⟩
      · exact le_of_eq (Option.some.inj ha)
      · exact le_of_eq (Option.some.inj ha)
      · have : a = h.nextArray := Option.some.inj (ha.symm.trans l3)
        omega
      · have : a = h.nextArray + 1 := Option.some.inj (ha.symm.trans l4)
        omega
    exact view_sameBelow _ _ _ _ _ self hal
      (sameBelow_trans _ _ _ _ _ _ hsb (applyWrites_sameBelow _ _ _ _ ws _ hfrom))

/-- Witness of C14 on `sampleObject` in `sampleHeap`: the clone reads as the
source does (the sample entity `Clone` is the identity), and after three
changes through the clone the source still reads as before. -/
theorem Clone_independent_witness :
    ((Clone sampleCloneDeps sampleHeap (some sampleObject)).2.map
        (view (Clone sampleCloneDeps sampleHeap (some sampleObject)).1))
        = some (view sampleHeap sampleObject) ∧
      ∃ clone, (Clone sampleCloneDeps sampleHeap (some sampleObject)).2 = some clone ∧
        view ([EntryWrite.setApp "Web" none, .deleteService "db",
            .setListenHTTP 0 "0.0.0.0:80"].foldl (applyWrite clone)
            (Clone sampleCloneDeps sampleHeap (some sampleObject)).1) sampleObject
          = view sampleHeap sampleObject :=
  have hc := Clone_independent sampleCloneDeps sampleHeap sampleObject
    (by simp [allocated, refsBelow, sampleObject, sampleHeap]) (by decide) (by decide)
  ⟨by decide, hc.2.elim (fun clone hcl => ⟨clone, hcl.1, hcl.2.2 _⟩)⟩

end Patrol
